import Mathlib

/-!
Verification of the Aeterna hex-grid game engine
(board model `GameState`, hex geometry `HexGrid`, and the action
resolution logic of `ActionExecutor`), shallowly embedded in Lean.
Machine integers are `Nat`/`Int`; the mutable `GameState` class becomes
an immutable structure updated functionally; the per-hex `Map` becomes a
total function on hex ids where only ids 1..41 are meaningful.
-/

namespace Aeterna

/-- `TokenType` from types.ts: `'mountain' | 'forest' | 'fire' | 'lake' | 'fog'`. -/
inductive TokenType where
  | mountain | forest | fire | lake | fog
deriving DecidableEq, Repr

/-- `ElementalType` from types.ts: `'earth' | 'water' | 'fire'`. -/
inductive ElementalType where
  | earth | water | fire
deriving DecidableEq, Repr

/-- `Phase` from types.ts. -/
inductive Phase where
  | startOfTurn | chooseAction | executing | confirm
deriving DecidableEq, Repr

/-- `ActionId` from types.ts (union of earth, water and fire actions). -/
inductive ActionId where
  | uproot | raiseMountain | landslide | sprout
  | mosey | conjure | surf | rematerialize
  | smokeDash | flameDash | firestorm | firewall
  | special
deriving DecidableEq, Repr

/-! ## HexGrid.ts: the 41-hex board, axial coordinates, adjacency -/

/-- `HEX_AXIAL` of HexGrid.ts: the axial coordinate `(q, r)` of each hex id,
`none` for ids outside 1..41 (the TypeScript map has no such entries). -/
def hexAxial : Nat → Option (Int × Int)
  | 1 => some (0, -4)
  | 2 => some (-2, -3) | 3 => some (-1, -3) | 4 => some (0, -3) | 5 => some (1, -3)
  | 6 => some (-4, -2) | 7 => some (-3, -2) | 8 => some (-2, -2) | 9 => some (-1, -2)
  | 10 => some (0, -2) | 11 => some (1, -2) | 12 => some (2, -2)
  | 13 => some (-3, -1) | 14 => some (-2, -1) | 15 => some (-1, -1) | 16 => some (0, -1)
  | 17 => some (1, -1) | 18 => some (2, -1)
  | 19 => some (-4, 0) | 20 => some (-3, 0) | 21 => some (-2, 0) | 22 => some (-1, 0)
  | 23 => some (0, 0) | 24 => some (1, 0) | 25 => some (2, 0)
  | 26 => some (-3, 1) | 27 => some (-2, 1) | 28 => some (-1, 1) | 29 => some (0, 1)
  | 30 => some (1, 1) | 31 => some (2, 1)
  | 32 => some (-3, 2) | 33 => some (-2, 2) | 34 => some (-1, 2) | 35 => some (0, 2)
  | 36 => some (1, 2)
  | 37 => some (-2, 3) | 38 => some (-1, 3) | 39 => some (0, 3) | 40 => some (1, 3)
  | 41 => some (-1, 4)
  | _ => none

/-- `ALL_HEX_IDS` of HexGrid.ts: the ids 1..41. -/
def allHexIds : List Nat := List.range' 1 41

/-- `SHORE_HEXES` of HexGrid.ts. -/
def shoreHexes : List Nat := [1, 2, 5, 6, 12, 13, 18, 19, 25, 26, 31, 32, 36, 37, 40, 41]

/-- `isShore` of HexGrid.ts. -/
def isShore (h : Nat) : Bool := shoreHexes.contains h

/-- `AXIAL_DIRECTIONS` of HexGrid.ts, in source order. -/
def axialDirections : List (Int × Int) :=
  [(1, 0), (-1, 0), (0, 1), (0, -1), (1, -1), (-1, 1)]

/-- The reverse lookup `axialToId` of HexGrid.ts: the hex id with the given
axial coordinates, if any (the table is injective, so `find?` over all ids
matches the `Map` the source builds). -/
def axialToId (q r : Int) : Option Nat :=
  allHexIds.find? fun h => hexAxial h = some (q, r)

/-- `getNeighbors` of HexGrid.ts: the up-to-6 adjacent on-board hex ids,
precomputed there from `HEX_AXIAL` and `AXIAL_DIRECTIONS`. -/
def getNeighbors (h : Nat) : List Nat :=
  match hexAxial h with
  | none => []
  | some (q, r) => axialDirections.filterMap fun d => axialToId (q + d.1) (r + d.2)

/-- `hexDistance` of HexGrid.ts: Chebyshev distance on cubic coordinates. -/
def hexDistance (a b : Nat) : Nat :=
  match hexAxial a, hexAxial b with
  | some (aq, ar), some (bq, br) =>
      max (max (aq - bq).natAbs (ar - br).natAbs) ((aq + ar) - (bq + br)).natAbs
  | _, _ => 0

/-- `isStraightLine` of HexGrid.ts: same `q`, same `r`, or same `s = -q-r`. -/
def isStraightLine (a b : Nat) : Bool :=
  match hexAxial a, hexAxial b with
  | some (aq, ar), some (bq, br) =>
      aq == bq || ar == br || (-aq - ar) == (-bq - br)
  | _, _ => false

/-- The stepping loop inside `getLinePath`: walk `n` hexes from `(cq, cr)` in
direction `(dq, dr)`, collecting ids, `none` as soon as a coordinate is off
the board. -/
def linePathWalk : Nat → Int → Int → Int → Int → Option (List Nat)
  | 0, _, _, _, _ => some []
  | n + 1, cq, cr, dq, dr =>
      match axialToId cq cr with
      | none => none
      | some id => (linePathWalk n (cq + dq) (cr + dr) dq dr).map (id :: ·)

/-- `getLinePath` of HexGrid.ts: the hexes from `from'` to `to'` exclusive of
`from'`, inclusive of `to'`; `none` if not a straight line or off board. -/
def getLinePath (a b : Nat) : Option (List Nat) :=
  if isStraightLine a b then
    match hexAxial a, hexAxial b with
    | some (aq, ar), some (bq, br) =>
        let dq := (bq - aq).sign
        let dr := (br - ar).sign
        if dq = 0 ∧ dr = 0 then some []
        else linePathWalk (hexDistance a b) (aq + dq) (ar + dr) dq dr
    | _, _ => none
  else none

/-- The coordinates of the stepped line from `a` towards `b` (the cells the
`getLinePath` loop visits), stated from the claim side: step by the sign of
the coordinate differences, `hexDistance a b` times. -/
def steppedCoords : Nat → Int → Int → Int → Int → List (Int × Int)
  | 0, _, _, _, _ => []
  | n + 1, cq, cr, dq, dr => (cq, cr) :: steppedCoords n (cq + dq) (cr + dr) dq dr

/-- Claim-side predicate: some hex of the stepped line between `a` and `b`
falls outside the 41-hex board. -/
def steppedLineLeavesBoard (a b : Nat) : Bool :=
  match hexAxial a, hexAxial b with
  | some (aq, ar), some (bq, br) =>
      let dq := (bq - aq).sign
      let dr := (br - ar).sign
      (steppedCoords (hexDistance a b) (aq + dq) (ar + dr) dq dr).any
        fun c => (axialToId c.1 c.2).isNone
  | _, _ => true

/-- The full check of claim C9 for a single pair of hexes: `getLinePath`
returns `none` exactly on non-collinear pairs or stepped lines leaving the
board, and otherwise a list of length `hexDistance a b` ending in `b`
(empty when `a = b`). -/
def linePathClaimCheck (a b : Nat) : Bool :=
  match getLinePath a b with
  | none => !isStraightLine a b || steppedLineLeavesBoard a b
  | some l =>
      isStraightLine a b && !steppedLineLeavesBoard a b &&
      l.length == hexDistance a b &&
      (if a == b then l.isEmpty else l.getLast? == some b)

/-- The body of the BFS's `for` loop over the current hex's neighbors:
skip already-visited or non-enterable neighbors, otherwise mark visited,
record as reachable, and enqueue at distance `dist + 1` when passable.
The accumulator is `(visited, queue, reach)`. -/
def reachStep (canEnter canPass : Nat → Bool) (dist : Nat)
    (acc : List Nat × List (Nat × Nat) × List Nat) (n : Nat) :
    List Nat × List (Nat × Nat) × List Nat :=
  if acc.1.contains n then acc
  else if !canEnter n then acc
  else
    (n :: acc.1,
     if canPass n then acc.2.1 ++ [(n, dist + 1)] else acc.2.1,
     acc.2.2 ++ [n])

def reachableLoop (canEnter canPass : Nat → Bool) (range : Nat) :
    Nat → List Nat → List (Nat × Nat) → List Nat → List Nat
  | 0, _, _, reach => reach
  | _ + 1, _, [], reach => reach
  | fuel + 1, visited, (current, dist) :: queue, reach =>
      if range ≤ dist then
        reachableLoop canEnter canPass range fuel visited queue reach
      else
        let acc := (getNeighbors current).foldl (reachStep canEnter canPass dist)
          (visited, queue, reach)
        reachableLoop canEnter canPass range fuel acc.1 acc.2.1 acc.2.2

/-- `getReachableHexes` of HexGrid.ts, as the list of hexes its
breadth-first search collects (the source returns them as a `Set` built in
the same order). The queue holds `(hex, distance)` pairs (`shift` from the
front, push to the back). The source's `while` loop is given as fuel a
bound it can never exhaust: every queue push is preceded by adding a new
member of `allHexIds` to `visited`, so at most 42 pops ever happen. -/
def getReachableHexes (start : Nat) (range : Nat)
    (canEnter : Nat → Bool) (canPass : Nat → Bool) : List Nat :=
  reachableLoop canEnter canPass range 100 [start] [(start, 0)] []

/-- The inner per-direction loop of `getLineHexes`: hexes `1..range` steps
away in direction `(dq, dr)`, stopping at the first off-board step. -/
def lineHexesInDir (q r dq dr : Int) : Nat → List Nat
  | 0 => []
  | n + 1 =>
      match axialToId (q + dq) (r + dr) with
      | none => []
      | some id => id :: lineHexesInDir (q + dq) (r + dr) dq dr n

/-- `getLineHexes` of HexGrid.ts: for each of the 6 directions, the ordered
hexes up to `range` away (directions yielding no hexes are dropped in the
source; here the empty lists are kept and flattened away by callers, which
only ever concatenate the per-direction hex lists). -/
def getLineHexes (from' : Nat) (range : Nat) : List (List Nat) :=
  match hexAxial from' with
  | none => []
  | some (q, r) => axialDirections.map fun d => lineHexesInDir q r d.1 d.2 range

/-! ## types.ts / GameState.ts: the data model -/

/-- `SpecialCard` of types.ts. -/
structure SpecialCard where
  id : String
  name : String
  description : String
deriving DecidableEq, Repr

/-- `SPECIAL_CARDS` of types.ts (6 unique cards). -/
def specialCards : List SpecialCard :=
  [⟨"start-of-turn", "Use Start of Turn", "Perform your Start of Turn ability (even if skipped)."⟩,
   ⟨"move-2-ignore", "Move 2, Ignore Terrain", "Move up to 2 hexes, ignoring terrain and other Elementals."⟩,
   ⟨"move-3-line", "Move 3 in a Line", "Move up to 3 hexes in a straight line."⟩,
   ⟨"teleport-shore", "Teleport to Shore", "Instantly move to any empty shore hex."⟩,
   ⟨"use-any-ability", "Use Any Ability", "Perform any one of your 4 main actions."⟩,
   ⟨"swap-places", "Swap Places", "Choose any two Elementals and switch their positions."⟩]

/-- Swap the entries at positions `i` and `j` of a list (the destructuring
swap of the Fisher-Yates loop); no-op when an index is out of range. -/
def listSwap {α : Type} (l : List α) (i j : Nat) : List α :=
  match l.get? i, l.get? j with
  | some x, some y => (l.set i y).set j x
  | _, _ => l

/-- The Fisher-Yates loop of `shuffle` in SpecialAbilityDeck.ts, from index
`i` down to 1. The ambient `Math.random()` draws are modelled by the
injected `stream`: draw `k` yields the swap index `stream k % (i + 1)`,
matching `Math.floor(Math.random() * (i + 1))`'s range. -/
def shuffleGo {α : Type} (stream : Nat → Nat) (k : Nat) (a : List α) : Nat → List α
  | 0 => a
  | i + 1 => shuffleGo stream (k + 1) (listSwap a (i + 1) (stream k % (i + 2))) i

/-- `shuffle` of SpecialAbilityDeck.ts (Fisher-Yates over a copy), with the
ambient random source made explicit as `stream`. -/
def shuffle {α : Type} (stream : Nat → Nat) (l : List α) : List α :=
  shuffleGo stream 0 l (l.length - 1)

/-- `SpecialAbilityDeck` of SpecialAbilityDeck.ts. -/
structure Deck where
  deck : List SpecialCard
  discard : List SpecialCard
  noReshuffle : Bool
deriving DecidableEq, Repr

/-- `buildDeck` + constructor of SpecialAbilityDeck.ts: two copies of each
of the 6 cards, shuffled with the ambient stream. -/
def mkDeck (stream : Nat → Nat) (noReshuffle : Bool) : Deck :=
  { deck := shuffle stream (specialCards.foldr (fun c acc => c :: c :: acc) []),
    discard := [],
    noReshuffle := noReshuffle }

/-- `useActiveCard` of SpecialAbilityDeck.ts: pop the head to the discard
pile; if the draw pile empties and reshuffling is allowed, shuffle the
discard pile (with the ambient stream) into a new draw pile. -/
def Deck.useActiveCard (stream : Nat → Nat) (d : Deck) : Option SpecialCard × Deck :=
  match d.deck with
  | [] => (none, d)
  | used :: rest =>
      let d' : Deck := { d with deck := rest, discard := d.discard ++ [used] }
      if d'.deck.isEmpty && !d'.discard.isEmpty && !d'.noReshuffle then
        (some used, { d' with deck := shuffle stream d'.discard, discard := [] })
      else
        (some used, d')

/-- `SpecialAbilityDeck.clone`. -/
def Deck.clone (d : Deck) : Deck :=
  { deck := d.deck, discard := d.discard, noReshuffle := d.noReshuffle }

/-- `HexState` of types.ts: tokens on the hex, optional elemental standee,
stone-minion marker. -/
structure HexState where
  tokens : List TokenType
  elemental : Option ElementalType
  stoneMinion : Bool
deriving DecidableEq, Repr

/-- `PlayerState` of types.ts; the `Record<string, number>` supply map is a
total function with missing keys read as 0 (the source's `?? 0`). -/
structure PlayerState where
  type : ElementalType
  hexId : Nat
  actionMarker : Option ActionId
  supplies : TokenType → Nat

/-- `GameEvent` of types.ts. -/
structure GameEvent where
  turn : Nat
  player : ElementalType
  action : String
  description : String
deriving DecidableEq, Repr

/-- The `pendingForcedMove` record set by `ActionExecutor.handleFireOnEarth`. -/
structure ForcedMove where
  player : ElementalType
  validTargets : List Nat
deriving DecidableEq, Repr

/-- `GameState` of GameState.ts. The board `Map` is a total function on hex
ids (only ids in `allHexIds` are meaningful); the `players` `Map` is a total
function on the three elementals. `pendingForcedMove` and `pendingFogMove`
are the fields written by ActionExecutor.ts and HexInteraction.ts
(absent/falsy before first assignment, hence `none` / `false` defaults). -/
structure GameState where
  board : Nat → HexState
  players : ElementalType → PlayerState
  turnOrder : List ElementalType
  currentPlayerIndex : Nat
  turnNumber : Nat
  phase : Phase
  specialDeck : Deck
  log : List GameEvent
  winner : Option ElementalType
  pendingAction : Option ActionId
  pendingSteps : List Nat
  stepInstruction : String
  sotUsed : Bool
  pendingForcedMove : Option ForcedMove
  pendingFogMove : Bool

namespace GameState

/-- `get currentPlayer` of GameState.ts. -/
def currentPlayer (s : GameState) : ElementalType :=
  s.turnOrder.getD s.currentPlayerIndex .earth

/-- `getPlayer`. -/
def getPlayer (s : GameState) (t : ElementalType) : PlayerState := s.players t

/-- `getHex`. -/
def getHex (s : GameState) (h : Nat) : HexState := s.board h

/-- Update the cell of one hex. -/
def setHex (s : GameState) (h : Nat) (c : HexState) : GameState :=
  { s with board := fun h' => if h' = h then c else s.board h' }

/-- Update one player's record. -/
def setPlayer (s : GameState) (t : ElementalType) (p : PlayerState) : GameState :=
  { s with players := fun t' => if t' = t then p else s.players t' }

/-- `setElementalOnHex` of GameState.ts: clear the elemental's old occupant
marker everywhere, set it on `hexId`, update the player's position. -/
def setElementalOnHex (s : GameState) (hexId : Nat) (t : ElementalType) : GameState :=
  let cleared : Nat → HexState := fun h =>
    let c := s.board h
    if c.elemental = some t then { c with elemental := none } else c
  let board' : Nat → HexState := fun h =>
    if h = hexId then { cleared h with elemental := some t } else cleared h
  { s with
    board := board',
    players := fun t' => if t' = t then { s.players t' with hexId := hexId } else s.players t' }

/-- `setStoneMinion` of GameState.ts: clear the marker everywhere, set it on
`hexId`. -/
def setStoneMinion (s : GameState) (hexId : Nat) : GameState :=
  { s with board := fun h =>
      if h = hexId then { s.board h with stoneMinion := true }
      else { s.board h with stoneMinion := false } }

/-- `getStoneMinionHex` of GameState.ts: the first board hex (in id order)
carrying the minion. -/
def getStoneMinionHex (s : GameState) : Option Nat :=
  allHexIds.find? fun h => (s.board h).stoneMinion

/-- `addToken` of GameState.ts (`push` appends). -/
def addToken (s : GameState) (hexId : Nat) (tok : TokenType) : GameState :=
  s.setHex hexId { s.getHex hexId with tokens := (s.getHex hexId).tokens ++ [tok] }

/-- `hasToken` of GameState.ts. -/
def hasToken (s : GameState) (hexId : Nat) (tok : TokenType) : Bool :=
  (s.getHex hexId).tokens.contains tok

/-- The state effect of `removeToken` of GameState.ts: splice out the first
occurrence (no-op when absent); the returned boolean is `hasToken`. -/
def removeToken (s : GameState) (hexId : Nat) (tok : TokenType) : GameState :=
  s.setHex hexId { s.getHex hexId with tokens := (s.getHex hexId).tokens.erase tok }

/-- `isHexEmpty` of GameState.ts: no non-fog token, no elemental, no minion. -/
def isHexEmpty (s : GameState) (hexId : Nat) : Bool :=
  let c := s.getHex hexId
  (c.tokens.filter (· ≠ .fog)).isEmpty && c.elemental.isNone && !c.stoneMinion

/-- `countTokensOnBoard` of GameState.ts. -/
def countTokensOnBoard (s : GameState) (tok : TokenType) : Nat :=
  (allHexIds.map fun h => (s.board h).tokens.count tok).sum

/-- `getTokenOwner` of GameState.ts (total: the switch covers every type). -/
def getTokenOwner : TokenType → ElementalType
  | .mountain | .forest => .earth
  | .lake | .fog => .water
  | .fire => .fire

/-- `returnTokenToSupply` of GameState.ts: increment the owner's supply. -/
def returnTokenToSupply (s : GameState) (tok : TokenType) : GameState :=
  let owner := getTokenOwner tok
  s.setPlayer owner
    { s.getPlayer owner with
      supplies := fun k => if k = tok then (s.getPlayer owner).supplies k + 1
                           else (s.getPlayer owner).supplies k }

/-- `destroyToken` of GameState.ts: remove the token from the hex and return
it to its owner's supply; no-op when the token is not there. -/
def destroyToken (s : GameState) (hexId : Nat) (tok : TokenType) : GameState :=
  if s.hasToken hexId tok then (s.removeToken hexId tok).returnTokenToSupply tok
  else s

/-- The state effect of `takeFromSupply` of GameState.ts: decrement if
positive; the returned boolean is `takeOk`. -/
def takeFromSupply (s : GameState) (t : ElementalType) (tok : TokenType) : GameState :=
  if (s.getPlayer t).supplies tok ≤ 0 then s
  else
    s.setPlayer t
      { s.getPlayer t with
        supplies := fun k => if k = tok then (s.getPlayer t).supplies k - 1
                             else (s.getPlayer t).supplies k }

/-- The boolean `takeFromSupply` returns. -/
def takeOk (s : GameState) (t : ElementalType) (tok : TokenType) : Bool :=
  0 < (s.getPlayer t).supplies tok

/-- `addLog` of GameState.ts. -/
def addLog (s : GameState) (description : String) : GameState :=
  { s with log := s.log ++ [{ turn := s.turnNumber, player := s.currentPlayer,
                              action := "", description := description }] }

/-- `advanceTurn` of GameState.ts. -/
def advanceTurn (s : GameState) : GameState :=
  let idx := (s.currentPlayerIndex + 1) % s.turnOrder.length
  { s with
    currentPlayerIndex := idx,
    turnNumber := if idx = 0 then s.turnNumber + 1 else s.turnNumber,
    phase := .startOfTurn,
    pendingAction := none,
    pendingSteps := [],
    sotUsed := false }

/-- `clone` of GameState.ts, line for line: a fresh `GameState` (whose
constructor leaves `stepInstruction` at `''` and the obligation fields
unset) with every explicitly copied field overwritten from `this`.
`stepInstruction`, `pendingForcedMove` and `pendingFogMove` are not in the
copied list. -/
def clone (s : GameState) : GameState :=
  { board := fun h => s.board h,
    players := fun t => s.players t,
    turnOrder := s.turnOrder,
    currentPlayerIndex := s.currentPlayerIndex,
    turnNumber := s.turnNumber,
    phase := s.phase,
    specialDeck := s.specialDeck.clone,
    log := s.log,
    winner := s.winner,
    pendingAction := s.pendingAction,
    pendingSteps := s.pendingSteps,
    stepInstruction := "",
    sotUsed := s.sotUsed,
    pendingForcedMove := none,
    pendingFogMove := false }

end GameState

/-- Earth's starting supply map in `setupScenario1`: `{ mountain: 3, forest: 3 }`. -/
def earthStartSupplies : TokenType → Nat
  | .mountain => 3
  | .forest => 3
  | _ => 0

/-- Water's starting supply map in `setupScenario1`: `{ lake: 4, fog: 1 }`. -/
def waterStartSupplies : TokenType → Nat
  | .lake => 4
  | .fog => 1
  | _ => 0

/-- Fire's starting supply map in `setupScenario1`: `{ fire: 11 }`. -/
def fireStartSupplies : TokenType → Nat
  | .fire => 11
  | _ => 0

/-- The three starting player records of `setupScenario1`. -/
def startPlayers : ElementalType → PlayerState
  | .earth => { type := .earth, hexId := 32, actionMarker := none, supplies := earthStartSupplies }
  | .water => { type := .water, hexId := 2, actionMarker := none, supplies := waterStartSupplies }
  | .fire => { type := .fire, hexId := 36, actionMarker := none, supplies := fireStartSupplies }

/-- `setupScenario1` + `initBoard` + constructor of GameState.ts: the fixed
initial scenario (the deck is shuffled with the ambient stream). -/
def initialGameState (stream : Nat → Nat) : GameState :=
  let s0 : GameState :=
    { board := fun _ => { tokens := [], elemental := none, stoneMinion := false },
      players := startPlayers,
      turnOrder := [.earth, .water, .fire],
      currentPlayerIndex := 0,
      turnNumber := 1,
      phase := .startOfTurn,
      specialDeck := mkDeck stream false,
      log := [],
      winner := none,
      pendingAction := none,
      pendingSteps := [],
      stepInstruction := "",
      sotUsed := false,
      pendingForcedMove := none,
      pendingFogMove := false }
  let s1 := ((s0.setElementalOnHex 32 .earth).setElementalOnHex 2 .water).setElementalOnHex 36 .fire
  let s2 := (((s1.addToken 22 .mountain).addToken 9 .lake).addToken 9 .fog).addToken 24 .fire
  (s2.setStoneMinion 19).addLog "Game started. Scenario 1."

/-! ## ActionExecutor.ts -/

open GameState

/-- `canEarthEnter`: blocked only by fire tokens. -/
def canEarthEnter (s : GameState) (h : Nat) : Bool :=
  !s.hasToken h .fire

/-- `canEarthPassThrough`: blocked by fire; fog (with no elemental on the
cell) stops movement. -/
def canEarthPassThrough (s : GameState) (h : Nat) : Bool :=
  if s.hasToken h .fire then false
  else if s.hasToken h .fog && (s.getHex h).elemental.isNone then false
  else true

/-- `canEarthEnd`: no fire, no mountain, no stone minion. -/
def canEarthEnd (s : GameState) (h : Nat) : Bool :=
  !s.hasToken h .fire && !s.hasToken h .mountain && !(s.getHex h).stoneMinion

/-- `canWaterEnter`: no mountain, no stone minion. -/
def canWaterEnter (s : GameState) (h : Nat) : Bool :=
  !s.hasToken h .mountain && !(s.getHex h).stoneMinion

/-- `canFireEnd`: no mountain, no lake, no stone minion. -/
def canFireEnd (s : GameState) (h : Nat) : Bool :=
  !s.hasToken h .mountain && !s.hasToken h .lake && !(s.getHex h).stoneMinion

/-- `getFireMovementBonus`: +1 when fire's fire-token supply is ≤ 4. -/
def getFireMovementBonus (s : GameState) : Nat :=
  if (s.getPlayer .fire).supplies .fire ≤ 4 then 1 else 0

/-- `handleEarthConversion`: earth landing on a lake converts it to a forest
(lake back to water's supply, forest consumed from earth's supply). -/
def handleEarthConversion (s : GameState) (h : Nat) : GameState :=
  if s.hasToken h .lake then
    let s1 := s.destroyToken h .lake
    if s1.takeOk .earth .forest then (s1.takeFromSupply .earth .forest).addToken h .forest
    else s1
  else s

/-- `handleWaterConversion`: water landing on a fire token converts it to a
lake; when that empties water's lake supply and fog remains, a fog token is
auto-deployed onto the same hex. -/
def handleWaterConversion (s : GameState) (h : Nat) : GameState :=
  if s.hasToken h .fire then
    let s1 := s.destroyToken h .fire
    if s1.takeOk .water .lake then
      let s2 := (s1.takeFromSupply .water .lake).addToken h .lake
      if (s2.getPlayer .water).supplies .lake = 0 && 0 < (s2.getPlayer .water).supplies .fog then
        (s2.takeFromSupply .water .fog).addToken h .fog
      else s2
    else s1
  else s

/-- `handleFireConversion`: fire landing on a forest converts it to a fire
token. -/
def handleFireConversion (s : GameState) (h : Nat) : GameState :=
  if s.hasToken h .forest then
    let s1 := s.destroyToken h .forest
    if s1.takeOk .fire .fire then (s1.takeFromSupply .fire .fire).addToken h .fire
    else s1
  else s

/-- `handleFireOnEarth`: when a fire token lands on earth's hex, earth must
move; with no legal adjacent destination fire wins at once, otherwise a
`pendingForcedMove` obligation is recorded. -/
def handleFireOnEarth (s : GameState) : GameState :=
  let validMoves := (getNeighbors ((s.getPlayer .earth).hexId)).filter (canEarthEnd s)
  if validMoves.isEmpty then
    ({ s with winner := some .fire } : GameState).addLog "Earth is trapped! Fire wins!"
  else
    { s with pendingForcedMove := some { player := .earth, validTargets := validMoves } }

/-! ### Start-of-turn abilities -/

/-- `getStoneMinonMoveTargets` (sic): minion neighbors, excluding earth's own
hex. -/
def getStoneMinonMoveTargets (s : GameState) : List Nat :=
  match s.getStoneMinionHex with
  | none => []
  | some minionHex =>
      (getNeighbors minionHex).filter (· ≠ (s.getPlayer .earth).hexId)

/-- `getWaterSOTTargets`: move 1 hex, or teleport to any lake/fog hex without
a mountain or the minion (the source accumulates into a `Set`; insertion
order with duplicates dropped is `eraseDups`). -/
def getWaterSOTTargets (s : GameState) : List Nat :=
  let moves := (getNeighbors ((s.getPlayer .water).hexId)).filter (canWaterEnter s)
  let teleports := allHexIds.filter fun id =>
    id ≠ (s.getPlayer .water).hexId &&
    (s.hasToken id .lake || s.hasToken id .fog) &&
    !s.hasToken id .mountain && !(s.getHex id).stoneMinion
  (moves ++ teleports).eraseDups

/-- `getFireSOTTargets`: fire's own hex when it has no fire token yet, plus
every fog-or-empty, minion-free hex adjacent to an existing fire token. -/
def getFireSOTTargets (s : GameState) : List Nat :=
  let own := if !s.hasToken ((s.getPlayer .fire).hexId) .fire
             then [(s.getPlayer .fire).hexId] else []
  let adj := (allHexIds.filter (s.hasToken · .fire)).flatMap fun id =>
    (getNeighbors id).filter fun n =>
      ((s.getHex n).tokens.filter (· ≠ .fog)).isEmpty && !(s.getHex n).stoneMinion
  (own ++ adj).eraseDups

/-- `getSOTValidTargets`, dispatching on the current player. -/
def getSOTValidTargets (s : GameState) : List Nat :=
  match s.currentPlayer with
  | .earth => getStoneMinonMoveTargets s
  | .water => getWaterSOTTargets s
  | .fire => getFireSOTTargets s

/-- The destruction loop of `executeEarthSOT`: destroy, one by one, each
token of a copy of the destination's token list. -/
def destroyAllAt (s : GameState) (h : Nat) (toks : List TokenType) : GameState :=
  toks.foldl (fun st tok => st.destroyToken h tok) s

/-- `executeEarthSOT`: the stone minion destroys every token on the
destination (fog included) and moves there. -/
def executeEarthSOT (s : GameState) (targetHex : Nat) : GameState :=
  let s1 := destroyAllAt s targetHex (s.getHex targetHex).tokens
  (s1.setStoneMinion targetHex).addLog
    ("Moved Stone Minion to hex " ++ toString targetHex ++ ".")

/-- `executeWaterSOT`: convert-then-move; a genuine 1-hex move (not a
teleport) flags `pendingFogMove` for the interactive fog follow-up. -/
def executeWaterSOT (s : GameState) (targetHex : Nat) : GameState :=
  let oldHex := (s.getPlayer .water).hexId
  let isMove := hexDistance oldHex targetHex = 1 && (getNeighbors oldHex).contains targetHex
  let s1 := (handleWaterConversion s targetHex).setElementalOnHex targetHex .water
  let s2 := if isMove then { s1 with pendingFogMove := true } else s1
  s2.addLog ("Water start-of-turn: moved to hex " ++ toString targetHex ++ ".")

/-- `executeFireSOT`: place a fire token from supply (silent no-op when the
supply is empty); placing it on earth's hex triggers the forced move. -/
def executeFireSOT (s : GameState) (targetHex : Nat) : GameState :=
  if !s.takeOk .fire .fire then s
  else
    let s1 := (s.takeFromSupply .fire .fire).addToken targetHex .fire
    let s2 := if targetHex = (s1.getPlayer .earth).hexId then handleFireOnEarth s1 else s1
    s2.addLog ("Fire start-of-turn: placed Fire on hex " ++ toString targetHex ++ ".")

/-- `executeSOT`: dispatch on the current player, mark the ability used, then
run the win check (`checkWinConditions` of WinChecker.ts, which is not in
the sources; per the spec it is a pure function `BoardState → Faction |
none`, so it is abstracted as the parameter `winCheck`). -/
def executeSOT (winCheck : GameState → Option ElementalType) (s : GameState)
    (targetHex : Nat) : GameState :=
  let s1 :=
    match s.currentPlayer with
    | .earth => executeEarthSOT s targetHex
    | .water => executeWaterSOT s targetHex
    | .fire => executeFireSOT s targetHex
  let s2 := { s1 with sotUsed := true }
  match winCheck s2 with
  | some w => { s2 with winner := some w }
  | none => s2

/-! ### Earth actions -/

/-- `getUprootTargets`: reachable within range 3 (4 with a forest on the
board) under earth's enter/pass rules, keeping only legal ending hexes. -/
def getUprootTargets (s : GameState) : List Nat :=
  let range := if 0 < s.countTokensOnBoard .forest then 4 else 3
  (getReachableHexes ((s.getPlayer .earth).hexId) range
    (canEarthEnter s) (canEarthPassThrough s)).filter (canEarthEnd s)

/-- `executeUproot`: convert-then-move. -/
def executeUproot (s : GameState) (targetHex : Nat) : GameState :=
  (handleEarthConversion s targetHex).setElementalOnHex targetHex .earth

/-- `getRaiseMountainMoveTargets`: stay, or any adjacent legal ending hex. -/
def getRaiseMountainMoveTargets (s : GameState) : List Nat :=
  (s.getPlayer .earth).hexId ::
    (getNeighbors ((s.getPlayer .earth).hexId)).filter (canEarthEnd s)

/-- `getRaiseMountainPlaceTargets`: any empty hex while mountains remain in
supply-reachable count (< 4 on board); once all 4 are out, the existing
mountain hexes (source-selection of the relocate sub-flow). -/
def getRaiseMountainPlaceTargets (s : GameState) : List Nat :=
  if s.countTokensOnBoard .mountain < 4 then
    allHexIds.filter fun id =>
      s.isHexEmpty id && (s.getHex id).elemental.isNone && !(s.getHex id).stoneMinion
  else
    allHexIds.filter (s.hasToken · .mountain)

/-- The movement half of `executeRaiseMountain` (skip when staying put). -/
def raiseMountainMoveStep (s : GameState) (moveTarget : Nat) : GameState :=
  if moveTarget ≠ (s.getPlayer .earth).hexId then
    (handleEarthConversion s moveTarget).setElementalOnHex moveTarget .earth
  else s

/-- `executeRaiseMountain`: move (optional), then place a mountain from
supply (the all-4-placed relocate flow is a UI-level no-op in the source). -/
def executeRaiseMountain (s : GameState) (moveTarget placeTarget : Nat) : GameState :=
  let s1 := raiseMountainMoveStep s moveTarget
  if 4 ≤ s1.countTokensOnBoard .mountain then s1
  else if s1.takeOk .earth .mountain then
    (s1.takeFromSupply .earth .mountain).addToken placeTarget .mountain
  else s1

/-- `getLandslideMoveTargets`: range equals mountains on board. -/
def getLandslideMoveTargets (s : GameState) : List Nat :=
  let range := s.countTokensOnBoard .mountain
  if range = 0 then [(s.getPlayer .earth).hexId]
  else
    (s.getPlayer .earth).hexId ::
      (getReachableHexes ((s.getPlayer .earth).hexId) range
        (canEarthEnter s) (canEarthPassThrough s)).filter (canEarthEnd s)

/-- `getLandslideDestroyTargets`: every mountain hex. -/
def getLandslideDestroyTargets (s : GameState) : List Nat :=
  allHexIds.filter (s.hasToken · .mountain)

/-- The per-token body of the neighbor scan: fog is skipped, a mountain
pushes the neighbor onto the worklist, anything else is destroyed. The
accumulator is `(state, stack)`. -/
def chainScanTok (n : Nat) (acc : GameState × List Nat) (tok : TokenType) :
    GameState × List Nat :=
  if tok = .fog then acc
  else if tok = .mountain then (acc.1, n :: acc.2)
  else (acc.1.destroyToken n tok, acc.2)

/-- Scan one neighbor: iterate over a copy of its current token list. -/
def chainScanNeighbor (acc : GameState × List Nat) (n : Nat) : GameState × List Nat :=
  (acc.1.getHex n).tokens.foldl (chainScanTok n) acc

/-- The worklist loop of `chainDestroyMountain`. `toProcess` is a stack
(the source pushes to and pops from the end; here pushes are consed so the
most recent push is popped first, the same LIFO order). Each newly processed
mountain hex is destroyed, then each neighbor's token-list copy is scanned.
The fuel can never run out on a board whose cells hold bounded token lists
(at most 6 pushes per processed hex on well-formed boards, and at most 41
hexes are ever processed). -/
def chainLoop : Nat → GameState → List Nat → List Nat → GameState
  | 0, s, _, _ => s
  | _ + 1, s, [], _ => s
  | fuel + 1, s, current :: stack, processed =>
      if processed.contains current then chainLoop fuel s stack processed
      else
        let processed' := current :: processed
        if s.hasToken current .mountain then
          let s1 := s.destroyToken current .mountain
          let res := (getNeighbors current).foldl chainScanNeighbor (s1, stack)
          chainLoop fuel res.1 res.2 processed'
        else chainLoop fuel s stack processed'

/-- `chainDestroyMountain` (the state effect; the destruction summary string
is only used in the returned log message). -/
def chainDestroyMountain (s : GameState) (hexId : Nat) : GameState :=
  chainLoop 1000 s [hexId] []

/-- The movement half of `executeLandslide`. -/
def landslideMoveStep (s : GameState) (moveTarget : Nat) : GameState :=
  if moveTarget ≠ (s.getPlayer .earth).hexId then
    (handleEarthConversion s moveTarget).setElementalOnHex moveTarget .earth
  else s

/-- `executeLandslide`: move, then optionally chain-destroy a mountain. -/
def executeLandslide (s : GameState) (moveTarget : Nat) (destroyTarget : Option Nat) :
    GameState :=
  let s1 := landslideMoveStep s moveTarget
  match destroyTarget with
  | none => s1
  | some d => chainDestroyMountain s1 d

/-- `getSproutTargets`: lakes adjacent to a forest. -/
def getSproutTargets (s : GameState) : List Nat :=
  allHexIds.filter fun id =>
    s.hasToken id .lake && (getNeighbors id).any (s.hasToken · .forest)

/-- `executeSprout`: replace the lake with a forest from supply. -/
def executeSprout (s : GameState) (lakeHex : Nat) : GameState :=
  let s1 := s.destroyToken lakeHex .lake
  if s1.takeOk .earth .forest then (s1.takeFromSupply .earth .forest).addToken lakeHex .forest
  else s1

/-! ### Water actions -/

/-- `getMoseyTargets`: stay, or any adjacent hex water may enter. -/
def getMoseyTargets (s : GameState) : List Nat :=
  (s.getPlayer .water).hexId ::
    (getNeighbors ((s.getPlayer .water).hexId)).filter (canWaterEnter s)

/-- `executeMosey`: convert-then-move (staying put is a no-op). -/
def executeMosey (s : GameState) (targetHex : Nat) : GameState :=
  if targetHex = (s.getPlayer .water).hexId then s
  else (handleWaterConversion s targetHex).setElementalOnHex targetHex .water

/-- `getConjureTargets`: with lake supply, empty hexes within distance 3;
without, the existing lake hexes (relocate flow). -/
def getConjureTargets (s : GameState) : List Nat :=
  if 0 < (s.getPlayer .water).supplies .lake then
    allHexIds.filter fun id =>
      hexDistance ((s.getPlayer .water).hexId) id ≤ 3 && s.isHexEmpty id
  else
    allHexIds.filter (s.hasToken · .lake)

/-- One iteration of `executeConjure`'s placement loop: place a lake from
supply; when that was the last lake and fog remains, auto-place a fog token
on the same hex. -/
def conjureOne (s : GameState) (hex : Nat) : GameState :=
  if s.takeOk .water .lake then
    let s1 := (s.takeFromSupply .water .lake).addToken hex .lake
    if (s1.getPlayer .water).supplies .lake = 0 && 0 < (s1.getPlayer .water).supplies .fog then
      (s1.takeFromSupply .water .fog).addToken hex .fog
    else s1
  else s

/-- `executeConjure`: place on (up to) the first two targets. -/
def executeConjure (s : GameState) (targets : List Nat) : GameState :=
  (targets.take 2).foldl conjureOne s

/-- `getSurfTargets`: from a shore hex, any other empty shore hex. -/
def getSurfTargets (s : GameState) : List Nat :=
  if !isShore ((s.getPlayer .water).hexId) then []
  else
    allHexIds.filter fun id =>
      id ≠ (s.getPlayer .water).hexId && isShore id && s.isHexEmpty id

/-- `executeSurf`: teleport (no conversion, no fog follow-up). -/
def executeSurf (s : GameState) (targetHex : Nat) : GameState :=
  s.setElementalOnHex targetHex .water

/-- `getRematerializeTargets`: every fog hex. -/
def getRematerializeTargets (s : GameState) : List Nat :=
  allHexIds.filter (s.hasToken · .fog)

/-- `executeRematerialize`: swap water with the fog token (a lake under the
fog stays where it is). -/
def executeRematerialize (s : GameState) (fogHex : Nat) : GameState :=
  let oldHex := (s.getPlayer .water).hexId
  (((s.removeToken fogHex .fog).addToken oldHex .fog).setElementalOnHex fogHex .water)

/-! ### Fire actions -/

/-- `getSmokeDashTargets`: straight lines of length `2 + bonus`, ignoring
terrain for pass-through, ending anywhere fire may end. -/
def getSmokeDashTargets (s : GameState) : List Nat :=
  let range := 2 + getFireMovementBonus s
  ((getLineHexes ((s.getPlayer .fire).hexId) range).flatten.filter (canFireEnd s)).eraseDups

/-- `executeSmokeDash`: convert-then-move. -/
def executeSmokeDash (s : GameState) (targetHex : Nat) : GameState :=
  (handleFireConversion s targetHex).setElementalOnHex targetHex .fire

/-- The per-direction scan of `getFlameDashTargets`: collect legal ending
hexes, stopping after the first mountain or lake. -/
def flameDashLine (s : GameState) : List Nat → List Nat
  | [] => []
  | h :: rest =>
      (if canFireEnd s h then [h] else []) ++
      (if s.hasToken h .mountain || s.hasToken h .lake then [] else flameDashLine s rest)

/-- `getFlameDashTargets`: straight lines of length `3 + bonus`, blocked by
mountains and lakes. -/
def getFlameDashTargets (s : GameState) : List Nat :=
  let range := 3 + getFireMovementBonus s
  ((getLineHexes ((s.getPlayer .fire).hexId) range).map (flameDashLine s)).flatten.eraseDups

/-- `executeFlameDashMove`: convert-then-move, optionally placing a fire
token on the destination. -/
def executeFlameDashMove (s : GameState) (targetHex : Nat) (placeFireOnDest : Bool) :
    GameState :=
  let s1 := (handleFireConversion s targetHex).setElementalOnHex targetHex .fire
  if placeFireOnDest && !s1.hasToken targetHex .fire then
    if s1.takeOk .fire .fire then (s1.takeFromSupply .fire .fire).addToken targetHex .fire
    else s1
  else s1

/-- `executeFlameDash` always places on the destination. -/
def executeFlameDash (s : GameState) (targetHex : Nat) : GameState :=
  executeFlameDashMove s targetHex true

/-- The body of `getConnectedFire`'s neighbor loop: unvisited fire-token
hexes join the connected set and the queue. The accumulator is
`(queue, connected)`. -/
def connectedStep (s : GameState) (acc : List Nat × List Nat) (n : Nat) :
    List Nat × List Nat :=
  if !acc.2.contains n && s.hasToken n .fire then (acc.1 ++ [n], acc.2 ++ [n])
  else acc

/-- The BFS of `getConnectedFire` (FIFO queue; hexes join the connected set
when enqueued). -/
def connectedFireLoop (s : GameState) : Nat → List Nat → List Nat → List Nat
  | 0, _, connected => connected
  | _ + 1, [], connected => connected
  | fuel + 1, current :: queue, connected =>
      let res := (getNeighbors current).foldl (connectedStep s) (queue, connected)
      connectedFireLoop s fuel res.1 res.2

/-- `getConnectedFire`: the connected component of fire-token hexes around
`start` (which is always included), in BFS insertion order. -/
def getConnectedFire (s : GameState) (start : Nat) : List Nat :=
  connectedFireLoop s 100 [start] [start]

/-- `getFireGroups` (as hex lists; the string ids only label the groups):
connected components of fire-token hexes, in first-encountered order. -/
def fireGroupsGo (s : GameState) : List Nat → List Nat → List (List Nat)
  | [], _ => []
  | fh :: rest, visited =>
      if visited.contains fh then fireGroupsGo s rest visited
      else
        let g := getConnectedFire s fh
        g :: fireGroupsGo s rest (visited ++ g)

/-- `getFireGroups`. -/
def getFireGroups (s : GameState) : List (List Nat) :=
  fireGroupsGo s (allHexIds.filter (s.hasToken · .fire)) []

/-- `getFirestormPlacementTargetsForGroups`: hexs adjacent to a group, not
holding mountain/lake/fire, and either fog-or-empty or holding a forest. -/
def getFirestormPlacementTargetsForGroups (s : GameState) (groups : List (List Nat)) :
    List Nat :=
  (groups.flatMap fun g => g.flatMap fun fh =>
    (getNeighbors fh).filter fun n =>
      !s.hasToken n .mountain && !s.hasToken n .lake && !s.hasToken n .fire &&
      (((s.getHex n).tokens.filter (· ≠ .fog)).isEmpty || s.hasToken n .forest)).eraseDups

/-- `getFirestormPlacementTargets`. -/
def getFirestormPlacementTargets (s : GameState) : List Nat :=
  getFirestormPlacementTargetsForGroups s (getFireGroups s)

/-- `placeFirestormToken`: destroy a forest if present, then place a fire
token from supply. -/
def placeFirestormToken (s : GameState) (hex : Nat) : GameState :=
  let s1 := if s.hasToken hex .forest then s.destroyToken hex .forest else s
  if s1.takeOk .fire .fire then (s1.takeFromSupply .fire .fire).addToken hex .fire
  else s1

/-- `getFirestormMoveTargets`: stay; through connected fire when standing on
fire (plus one hex beyond when the bonus is active); one adjacent hex when
off fire but with the bonus. -/
def getFirestormMoveTargets (s : GameState) : List Nat :=
  let fireHex := (s.getPlayer .fire).hexId
  let bonus := getFireMovementBonus s
  let rest :=
    if s.hasToken fireHex .fire then
      let connected := getConnectedFire s fireHex
      connected ++
        (if 0 < bonus then
          connected.flatMap fun fh =>
            (getNeighbors fh).filter fun n => !connected.contains n && canFireEnd s n
         else [])
    else if 0 < bonus then
      (getNeighbors fireHex).filter (canFireEnd s)
    else []
  (fireHex :: rest).eraseDups

/-- Per-placed-hex check of `executeFirestorm`: a fire token placed on
earth's hex triggers the forced move. -/
def firestormEarthCheck (st : GameState) (hex : Nat) : GameState :=
  if hex = (st.getPlayer .earth).hexId then handleFireOnEarth st else st

/-- `executeFirestorm`: fire tokens were placed live (via
`placeFirestormToken`); the last target is the move destination, the others
trigger the forced move when they hit earth's hex. -/
def executeFirestorm (s : GameState) (targets : List Nat) : GameState :=
  let placed := targets.dropLast
  let s1 := placed.foldl firestormEarthCheck s
  match targets.getLast? with
  | none => s1
  | some moveTarget =>
      if moveTarget ≠ (s1.getPlayer .fire).hexId then
        (handleFireConversion s1 moveTarget).setElementalOnHex moveTarget .fire
      else s1

/-- `getFirewallDirectionHexes`: all hexes within 3 in the 6 directions. -/
def getFirewallDirectionHexes (s : GameState) : List Nat :=
  (getLineHexes ((s.getPlayer .fire).hexId) 3).flatten

/-- `getFirewallPreview`: the fog-or-empty, minion-free hexes of the chosen
direction's line (empty when the chosen hex is not on a straight line). -/
def getFirewallPreview (s : GameState) (directionHex : Nat) : List Nat :=
  match getLinePath ((s.getPlayer .fire).hexId) directionHex with
  | none => []
  | some _ =>
      match (getLineHexes ((s.getPlayer .fire).hexId) 3).find? (·.contains directionHex) with
      | none => []
      | some hexes =>
          hexes.filter fun h =>
            ((s.getHex h).tokens.filter (· ≠ .fog)).isEmpty && !(s.getHex h).stoneMinion

/-- One placement of `executeFirewall`'s loop. -/
def firewallPlaceStep (st : GameState) (hex : Nat) : GameState :=
  if st.takeOk .fire .fire then (st.takeFromSupply .fire .fire).addToken hex .fire
  else st

/-- `executeFirewall`: place fire tokens from supply on the previewed hexes. -/
def executeFirewall (s : GameState) (directionHex : Nat) : GameState :=
  (getFirewallPreview s directionHex).foldl firewallPlaceStep s

/-! ### Special ability, forced move, fog movement -/

/-- The state effect of `executeSpecialAbility`: use the active card (the
deck may reshuffle with the ambient stream). -/
def executeSpecialAbility (stream : Nat → Nat) (s : GameState) : GameState :=
  { s with specialDeck := (s.specialDeck.useActiveCard stream).2 }

/-- `executeForcedMove`: earth resolves its forced move (with conversion),
clearing the obligation. -/
def executeForcedMove (s : GameState) (targetHex : Nat) : GameState :=
  let s1 := (handleEarthConversion s targetHex).setElementalOnHex targetHex .earth
  { s1.addLog ("Earth forced to move to hex " ++ toString targetHex ++ ".") with
    pendingForcedMove := none }

/-- `getFogTokenHexes`. -/
def getFogTokenHexes (s : GameState) : List Nat :=
  allHexIds.filter (s.hasToken · .fog)

/-- `getFogMoveTargets`: the fog hex itself (skip) plus everything within
`range` by unrestricted BFS — the loop is `getReachableHexes`'s with both
predicates trivially true and the start hex pre-seeded into the targets. -/
def getFogMoveTargets (s : GameState) (fogHex : Nat) (range : Nat) : List Nat :=
  reachableLoop (fun _ => true) (fun _ => true) range 100 [fogHex] [(fogHex, 0)] [fogHex]

/-- `moveFog`: relocate a fog token (skip when source equals destination). -/
def moveFog (s : GameState) (fromHex toHex : Nat) : GameState :=
  if fromHex = toHex then s
  else
    ((s.removeToken fromHex .fog).addToken toHex .fog).addLog
      ("Fog moved from hex " ++ toString fromHex ++ " to hex " ++ toString toHex ++ ".")

/-! ### Dispatchers -/

/-- `getValidTargets` of ActionExecutor.ts. -/
def getValidTargets (s : GameState) : ActionId → List Nat
  | .uproot => getUprootTargets s
  | .raiseMountain => getRaiseMountainMoveTargets s
  | .landslide => getLandslideMoveTargets s
  | .sprout => getSproutTargets s
  | .mosey => getMoseyTargets s
  | .conjure => getConjureTargets s
  | .surf => getSurfTargets s
  | .rematerialize => getRematerializeTargets s
  | .smokeDash => getSmokeDashTargets s
  | .flameDash => getFlameDashTargets s
  | .firestorm => getFirestormPlacementTargets s
  | .firewall => getFirewallDirectionHexes s
  | .special => []

/-- The state effect of `executeAction` of ActionExecutor.ts. The source
indexes `targets[0]` / `targets[1]` without checks; an invocation whose
target list is too short dereferences `undefined` and throws, modelled as
`none`. (`conjure` and `firestorm` take the whole list and tolerate any
arity; the `special` id has no case in the source's switch, so it falls to
the default branch and changes nothing.) -/
def executeAction (a : ActionId) (targets : List Nat) (s : GameState) : Option GameState :=
  match a, targets with
  | .uproot, t :: _ => some (executeUproot s t)
  | .raiseMountain, m :: p :: _ => some (executeRaiseMountain s m p)
  | .landslide, m :: rest => some (executeLandslide s m rest.head?)
  | .sprout, t :: _ => some (executeSprout s t)
  | .mosey, t :: _ => some (executeMosey s t)
  | .conjure, ts => some (executeConjure s ts)
  | .surf, t :: _ => some (executeSurf s t)
  | .rematerialize, t :: _ => some (executeRematerialize s t)
  | .smokeDash, t :: _ => some (executeSmokeDash s t)
  | .flameDash, t :: _ => some (executeFlameDash s t)
  | .firestorm, ts => some (executeFirestorm s ts)
  | .firewall, t :: _ => some (executeFirewall s t)
  | .special, _ => some s
  | .raiseMountain, _ => none
  | _, [] => none

/-! ## Basic algebra of the state primitives -/

@[simp] theorem board_setHex (s : GameState) (h : Nat) (c : HexState) (h' : Nat) :
    (s.setHex h c).board h' = if h' = h then c else s.board h' := rfl

@[simp] theorem players_setHex (s : GameState) (h : Nat) (c : HexState) :
    (s.setHex h c).players = s.players := rfl

@[simp] theorem players_setPlayer (s : GameState) (p : ElementalType) (ps : PlayerState)
    (p' : ElementalType) :
    (s.setPlayer p ps).players p' = if p' = p then ps else s.players p' := rfl

@[simp] theorem board_setPlayer (s : GameState) (p : ElementalType) (ps : PlayerState) :
    (s.setPlayer p ps).board = s.board := rfl

@[simp] theorem board_addLog (s : GameState) (m : String) : (s.addLog m).board = s.board := rfl

@[simp] theorem players_addLog (s : GameState) (m : String) :
    (s.addLog m).players = s.players := rfl

@[simp] theorem board_returnToken (s : GameState) (tok : TokenType) :
    (s.returnTokenToSupply tok).board = s.board := rfl

theorem supplies_returnToken (s : GameState) (tok : TokenType) (p : ElementalType)
    (k : TokenType) :
    ((s.returnTokenToSupply tok).players p).supplies k
      = (s.players p).supplies k + if p = getTokenOwner tok ∧ k = tok then 1 else 0 := by
  unfold GameState.returnTokenToSupply
  simp only [players_setPlayer, GameState.getPlayer]
  by_cases hp : p = getTokenOwner tok
  · subst hp; simp only [if_pos rfl]
    by_cases hk : k = tok
    · subst hk; simp
    · simp [hk]
  · rw [if_neg hp]
    simp [hp]

@[simp] theorem players_addToken (s : GameState) (h : Nat) (tok : TokenType) :
    (s.addToken h tok).players = s.players := rfl

theorem board_addToken (s : GameState) (h : Nat) (tok : TokenType) (h' : Nat) :
    (s.addToken h tok).board h'
      = if h' = h then { s.board h with tokens := (s.board h).tokens ++ [tok] }
        else s.board h' := rfl

@[simp] theorem players_removeToken (s : GameState) (h : Nat) (tok : TokenType) :
    (s.removeToken h tok).players = s.players := rfl

theorem board_removeToken (s : GameState) (h : Nat) (tok : TokenType) (h' : Nat) :
    (s.removeToken h tok).board h'
      = if h' = h then { s.board h with tokens := (s.board h).tokens.erase tok }
        else s.board h' := rfl

theorem board_destroyToken_other (s : GameState) (h : Nat) (tok : TokenType) (h' : Nat)
    (hne : h' ≠ h) : (s.destroyToken h tok).board h' = s.board h' := by
  unfold GameState.destroyToken
  split
  · rw [board_returnToken, board_removeToken, if_neg hne]
  · rfl

theorem players_destroyToken (s : GameState) (h : Nat) (tok : TokenType) (p : ElementalType)
    (k : TokenType) :
    ((s.destroyToken h tok).players p).supplies k
      = (s.players p).supplies k
        + if s.hasToken h tok ∧ p = getTokenOwner tok ∧ k = tok then 1 else 0 := by
  unfold GameState.destroyToken
  split
  · rename_i hht
    rw [supplies_returnToken, players_removeToken]
    simp [hht]
  · rename_i hht
    simp [hht]

theorem board_takeFromSupply (s : GameState) (p : ElementalType) (tok : TokenType) :
    (s.takeFromSupply p tok).board = s.board := by
  unfold GameState.takeFromSupply
  split <;> rfl

theorem board_setStoneMinion (s : GameState) (t : Nat) (h : Nat) :
    (s.setStoneMinion t).board h
      = if h = t then { s.board h with stoneMinion := true }
        else { s.board h with stoneMinion := false } := rfl

@[simp] theorem players_setStoneMinion (s : GameState) (t : Nat) :
    (s.setStoneMinion t).players = s.players := rfl

theorem players_setElementalOnHex (s : GameState) (h : Nat) (t : ElementalType)
    (p : ElementalType) :
    (s.setElementalOnHex h t).players p
      = if p = t then { s.players p with hexId := h } else s.players p := rfl

theorem hexId_setElementalOnHex (s : GameState) (h : Nat) (t : ElementalType) :
    ((s.setElementalOnHex h t).players t).hexId = h := by
  rw [players_setElementalOnHex, if_pos rfl]

theorem tokens_setElementalOnHex (s : GameState) (h : Nat) (t : ElementalType) (h' : Nat) :
    ((s.setElementalOnHex h t).board h').tokens = (s.board h').tokens := by
  unfold GameState.setElementalOnHex
  dsimp only
  split <;> split <;> rfl

/-! ## Claim C3 — `clone` -/

/-- A concrete mid-action state: the initial scenario with a step
instruction being shown and the transient obligation fields set. -/
def cloneProbeState : GameState :=
  { initialGameState (fun _ => 0) with
    stepInstruction := "Choose a hex",
    pendingForcedMove := some { player := .earth, validTargets := [31] },
    pendingFogMove := true }

/-- Claim C3 is false as stated: `clone` is not deep-equal to the original
in every field — the step-instruction field of the clone is the
constructor's `''`, not the original's value (and the pending forced-move /
fog-move obligations are dropped the same way). -/
theorem clone_counterexample :
    (GameState.clone cloneProbeState).stepInstruction ≠ cloneProbeState.stepInstruction ∧
    (GameState.clone cloneProbeState).pendingForcedMove ≠ cloneProbeState.pendingForcedMove ∧
    (GameState.clone cloneProbeState).pendingFogMove ≠ cloneProbeState.pendingFogMove := by
  refine ⟨?_, ?_, ?_⟩ <;> decide

/-- Claim C3, amended: `clone` reproduces every field of the state except
the transient `stepInstruction` (reset to `''`), `pendingForcedMove`
(dropped to `none`) and `pendingFogMove` (dropped to `false`); in
particular the board, the players with their supply maps, the deck, the
log and the winner are all copied, and as the clone is a pure value built
from the original's fields it shares no mutable substructure with it. -/
theorem clone_copies_all_but_transients (s : GameState) :
    s.clone = { s with stepInstruction := "",
                       pendingForcedMove := none,
                       pendingFogMove := false } := rfl

/-! ## Claim C5 — `handleFireOnEarth` -/

/-- Claim C5: when a fire token is placed on earth's hex,
`handleFireOnEarth` computes earth's legal adjacent ending hexes (adjacent
hexes with no fire token, no mountain and no stone minion); if there are
none it immediately declares fire the winner and records no forced-move
obligation, otherwise it records exactly that set as a `pendingForcedMove`
for earth and leaves the winner unchanged. -/
theorem handleFireOnEarth_spec (s : GameState) :
    (((getNeighbors ((s.players .earth).hexId)).filter fun n =>
        !s.hasToken n .fire && !s.hasToken n .mountain && !(s.board n).stoneMinion) = [] →
      (handleFireOnEarth s).winner = some .fire ∧
      (handleFireOnEarth s).pendingForcedMove = s.pendingForcedMove) ∧
    (∀ l, ((getNeighbors ((s.players .earth).hexId)).filter fun n =>
        !s.hasToken n .fire && !s.hasToken n .mountain && !(s.board n).stoneMinion) = l →
      l ≠ [] →
      (handleFireOnEarth s).pendingForcedMove = some { player := .earth, validTargets := l } ∧
      (handleFireOnEarth s).winner = s.winner) := by
  have hfilter : ∀ n, (fun n => !s.hasToken n .fire && !s.hasToken n .mountain &&
      !(s.board n).stoneMinion) n = canEarthEnd s n := by
    intro n; rfl
  constructor
  · intro hempty
    unfold handleFireOnEarth
    have : ((getNeighbors ((s.getPlayer .earth).hexId)).filter (canEarthEnd s)).isEmpty = true := by
      simp only [GameState.getPlayer]
      rw [List.filter_congr fun n _ => (hfilter n).symm] at *
      simp [hempty]
    rw [if_pos this]
    exact ⟨rfl, rfl⟩
  · intro l hl hne
    unfold handleFireOnEarth
    have : ((getNeighbors ((s.getPlayer .earth).hexId)).filter (canEarthEnd s)) = l := by
      simp only [GameState.getPlayer]
      rw [List.filter_congr fun n _ => (hfilter n).symm] at *
      exact hl
    rw [this, if_neg (by simpa [List.isEmpty_iff] using hne)]
    exact ⟨rfl, rfl⟩

/-- A trap state: earth stands on hex 1 whose only two neighbors (4 and 3)
hold fire tokens. -/
def trapProbeState : GameState :=
  (((initialGameState (fun _ => 0)).setElementalOnHex 1 .earth).addToken 4 .fire).addToken 3
    .fire

/-- Witness for C5, at two concrete inputs: in the trap state fire wins at
once with no obligation recorded; in the open initial scenario the
obligation for earth lists exactly hexes 33, 26, 27. -/
theorem handleFireOnEarth_spec_witness :
    ((handleFireOnEarth trapProbeState).winner = some .fire ∧
      (handleFireOnEarth trapProbeState).pendingForcedMove = none) ∧
    (handleFireOnEarth (initialGameState fun _ => 0)).pendingForcedMove
      = some { player := .earth, validTargets := [33, 26, 27] } ∧
    (handleFireOnEarth (initialGameState fun _ => 0)).winner = none := by
  refine ⟨?_, ?_, ?_⟩
  · have h := (handleFireOnEarth_spec trapProbeState).1 (by decide)
    exact ⟨h.1, h.2.trans (by decide)⟩
  · exact ((handleFireOnEarth_spec (initialGameState fun _ => 0)).2 [33, 26, 27]
      (by decide) (by decide)).1
  · exact (((handleFireOnEarth_spec (initialGameState fun _ => 0)).2 [33, 26, 27]
      (by decide) (by decide)).2).trans (by decide)

/-! ## Claim C6 — fire's range bonus -/

/-- Claim-side definition: smoke-dash targets computed at an explicit
straight-line range. -/
def smokeDashTargetsAtRange (s : GameState) (range : Nat) : List Nat :=
  ((getLineHexes ((s.players .fire).hexId) range).flatten.filter (canFireEnd s)).eraseDups

/-- Claim-side definition: flame-dash targets at an explicit range. -/
def flameDashTargetsAtRange (s : GameState) (range : Nat) : List Nat :=
  ((getLineHexes ((s.players .fire).hexId) range).map (flameDashLine s)).flatten.eraseDups

/-- Claim C6: fire's movement bonus is +1 exactly when its fire-token
supply is at most 4 (recomputed from the current state on every query);
smoke-dash targets are computed at straight-line range 2 when the supply
is exactly 5 and at range 3 whenever it is 4 or less, and flame-dash
targets likewise at range `3 + bonus`. -/
theorem fire_range_bonus_spec (s : GameState) :
    (getFireMovementBonus s = 1 ↔ (s.players .fire).supplies .fire ≤ 4) ∧
    (getFireMovementBonus s = 0 ↔ 4 < (s.players .fire).supplies .fire) ∧
    ((s.players .fire).supplies .fire = 5 →
      getSmokeDashTargets s = smokeDashTargetsAtRange s 2) ∧
    ((s.players .fire).supplies .fire ≤ 4 →
      getSmokeDashTargets s = smokeDashTargetsAtRange s 3) ∧
    getFlameDashTargets s = flameDashTargetsAtRange s (3 + getFireMovementBonus s) := by
  refine ⟨?_, ?_, ?_, ?_, rfl⟩
  · unfold getFireMovementBonus GameState.getPlayer
    split <;> rename_i hle <;> constructor <;> intro h <;> omega
  · unfold getFireMovementBonus GameState.getPlayer
    split <;> rename_i hle <;> constructor <;> intro h <;> omega
  · intro h5
    unfold getSmokeDashTargets getFireMovementBonus smokeDashTargetsAtRange
    rw [if_neg (by simp [GameState.getPlayer, h5])]
    rfl
  · intro h4
    unfold getSmokeDashTargets getFireMovementBonus smokeDashTargetsAtRange
    rw [if_pos (by simpa [GameState.getPlayer] using h4)]
    rfl

/-- A state with fire's supply at exactly 5 (the initial scenario after six
fire placements), built by overriding the player record. -/
def fireSupplyProbe (n : Nat) : GameState :=
  let s := initialGameState (fun _ => 0)
  s.setPlayer .fire { s.getPlayer .fire with supplies := fun k => if k = .fire then n else 0 }

/-- Witness for C6 at supplies 5 and 4. -/
theorem fire_range_bonus_spec_witness :
    getSmokeDashTargets (fireSupplyProbe 5) = smokeDashTargetsAtRange (fireSupplyProbe 5) 2 ∧
    getSmokeDashTargets (fireSupplyProbe 4) = smokeDashTargetsAtRange (fireSupplyProbe 4) 3 ∧
    getFireMovementBonus (fireSupplyProbe 4) = 1 := by
  refine ⟨(fire_range_bonus_spec (fireSupplyProbe 5)).2.2.1 (by decide),
          (fire_range_bonus_spec (fireSupplyProbe 4)).2.2.2.1 (by decide),
          (fire_range_bonus_spec (fireSupplyProbe 4)).1.mpr (by decide)⟩

/-- The initial scenario with an arbitrary fixed deck order. -/
def initState : GameState := initialGameState fun _ => 0

/-! ## Claim C1 — `executeAction` does not validate its targets -/

/-- Claim C1 is false as stated: hex 22 is not in the legal target set of
water's mosey (it is two hexes away and holds a mountain), yet
`executeAction` moves water there all the same — there is no
validate-then-apply guard inside the engine. -/
theorem invalid_target_mutates_counterexample :
    22 ∉ getValidTargets initState .mosey ∧
    ((executeAction .mosey [22] initState).map fun s' => (s'.players .water).hexId)
      = some 22 ∧
    (initState.players .water).hexId = 2 := by
  refine ⟨by decide, by decide, by decide⟩

/-- Claim C1, amended: `executeAction` performs no target validation at all;
for any target other than water's current hex, the mosey branch applies the
fire-to-lake conversion and moves water onto the given hex, whether or not
it is in the most recently returned legal set. Rejecting out-of-set targets
is left entirely to the driving UI. -/
theorem executeAction_mosey_unvalidated (s : GameState) (t : Nat)
    (hne : t ≠ (s.players .water).hexId) :
    executeAction .mosey [t] s
      = some ((handleWaterConversion s t).setElementalOnHex t .water) ∧
    ((executeAction .mosey [t] s).map fun s' => (s'.players .water).hexId) = some t := by
  have hm : executeMosey s t = (handleWaterConversion s t).setElementalOnHex t .water := by
    unfold executeMosey GameState.getPlayer
    rw [if_neg hne]
  refine ⟨by simpa [executeAction] using hm, ?_⟩
  simp only [executeAction, hm]
  exact congrArg some (hexId_setElementalOnHex (handleWaterConversion s t) t .water)

/-- Witness for the amended C1 at the concrete invalid target 22. -/
theorem executeAction_mosey_unvalidated_witness :
    22 ≠ (initState.players .water).hexId ∧
    ((executeAction .mosey [22] initState).map fun s' => (s'.players .water).hexId)
      = some 22 :=
  ⟨by decide, (executeAction_mosey_unvalidated initState 22 (by decide)).2⟩

/-! ## Claim C10 — the stone minion's start-of-turn move -/

theorem board_destroyToken_present (s : GameState) (h : Nat) (tok : TokenType)
    (hht : s.hasToken h tok) :
    (s.destroyToken h tok).board h
      = { s.board h with tokens := (s.board h).tokens.erase tok } := by
  unfold GameState.destroyToken
  rw [if_pos hht, board_returnToken, board_removeToken, if_pos rfl]

/-- Running the `executeEarthSOT` destruction loop over exactly the
destination's token list empties the hex, touches no other hex, and
returns every destroyed token to its owner's supply. -/
theorem destroyAllAt_spec (h : Nat) :
    ∀ (toks : List TokenType) (s : GameState), (s.board h).tokens = toks →
      ((destroyAllAt s h toks).board h).tokens = [] ∧
      (∀ h', h' ≠ h → (destroyAllAt s h toks).board h' = s.board h') ∧
      ((destroyAllAt s h toks).board h).elemental = (s.board h).elemental ∧
      ((destroyAllAt s h toks).board h).stoneMinion = (s.board h).stoneMinion ∧
      (∀ p k, ((destroyAllAt s h toks).players p).supplies k
        = (s.players p).supplies k + if getTokenOwner k = p then toks.count k else 0)
  | [], s, htoks => by
      refine ⟨htoks, fun _ _ => rfl, rfl, rfl, fun p k => by simp [destroyAllAt]⟩
  | x :: rest, s, htoks => by
      have hstep : destroyAllAt s h (x :: rest) = destroyAllAt (s.destroyToken h x) h rest := rfl
      have hht : s.hasToken h x := by
        unfold GameState.hasToken GameState.getHex
        rw [htoks]
        simp
      have hb1 : (s.destroyToken h x).board h
          = { s.board h with tokens := rest } := by
        rw [board_destroyToken_present s h x hht]
        congr 1
        rw [htoks, List.erase_cons_head]
      obtain ⟨ih1, ih2, ih3, ih4, ih5⟩ :=
        destroyAllAt_spec h rest (s.destroyToken h x) (by rw [hb1])
      rw [hstep]
      refine ⟨ih1, ?_, ?_, ?_, ?_⟩
      · intro h' hne
        rw [ih2 h' hne, board_destroyToken_other s h x h' hne]
      · rw [ih3, hb1]
      · rw [ih4, hb1]
      · intro p k
        rw [ih5 p k, players_destroyToken]
        have hred : (if s.hasToken h x = true ∧ p = getTokenOwner x ∧ k = x then 1 else 0)
            = if p = getTokenOwner x ∧ k = x then 1 else 0 := by
          simp [hht]
        rw [hred]
        by_cases hk : k = x
        · subst hk
          by_cases hp : getTokenOwner k = p
          · rw [if_pos ⟨hp.symm, rfl⟩, if_pos hp, if_pos hp, List.count_cons_self]
            omega
          · have h1 : ¬(p = getTokenOwner k ∧ k = k) := fun hc => hp hc.1.symm
            rw [if_neg h1, if_neg hp, if_neg hp]
        · have h1 : ¬(p = getTokenOwner x ∧ k = x) := fun hc => hk hc.2
          have hcnt : (x :: rest).count k = rest.count k :=
            List.count_cons_of_ne hk rest
          rw [if_neg h1, hcnt]
          omega

/-- Claim C10: `executeEarthSOT` destroys every token on the destination
hex — fog included — returning each to its owner's supply, and relocates
the stone minion so that it stands on exactly the target hex; the tokens
of every other hex are untouched. -/
theorem executeEarthSOT_spec (s : GameState) (t : Nat) :
    ((executeEarthSOT s t).board t).tokens = [] ∧
    (∀ h, ((executeEarthSOT s t).board h).stoneMinion = true ↔ h = t) ∧
    (∀ h, h ≠ t → ((executeEarthSOT s t).board h).tokens = (s.board h).tokens) ∧
    (∀ p k, ((executeEarthSOT s t).players p).supplies k
      = (s.players p).supplies k
        + if getTokenOwner k = p then (s.board t).tokens.count k else 0) := by
  obtain ⟨h1, h2, _h3, _h4, h5⟩ := destroyAllAt_spec t (s.board t).tokens s rfl
  have hboard : ∀ h, (executeEarthSOT s t).board h
      = if h = t then { (destroyAllAt s t (s.board t).tokens).board h with stoneMinion := true }
        else { (destroyAllAt s t (s.board t).tokens).board h with stoneMinion := false } := by
    intro h
    unfold executeEarthSOT GameState.getHex
    rw [board_addLog, board_setStoneMinion]
  refine ⟨?_, ?_, ?_, ?_⟩
  · rw [hboard t, if_pos rfl]
    exact h1
  · intro h
    rw [hboard h]
    by_cases ht : h = t
    · simp [ht]
    · simp [ht]
  · intro h hne
    rw [hboard h, if_neg hne]
    have := h2 h hne
    simp [this]
  · intro p k
    have hp : (executeEarthSOT s t).players = (destroyAllAt s t (s.board t).tokens).players := rfl
    rw [hp]
    exact h5 p k

/-- Witness for C10: moving the minion onto hex 9 of the initial scenario
(which holds a lake-fog stack) clears the hex, including the fog, puts the
minion there, and returns the lake and the fog to water's supply. -/
theorem executeEarthSOT_spec_witness :
    ((executeEarthSOT initState 9).board 9).tokens = [] ∧
    ((executeEarthSOT initState 9).board 9).stoneMinion = true ∧
    ((executeEarthSOT initState 9).board 22).tokens = (initState.board 22).tokens ∧
    ((executeEarthSOT initState 9).players .water).supplies .lake = 5 ∧
    ((executeEarthSOT initState 9).players .water).supplies .fog = 2 := by
  obtain ⟨t1, t2, t3, t4⟩ := executeEarthSOT_spec initState 9
  exact ⟨t1, (t2 9).mpr rfl, t3 22 (by decide),
         (t4 .water .lake).trans (by decide), (t4 .water .fog).trans (by decide)⟩

/-! ## Claim C9 — `getLinePath` -/

/-- One row of the C9 check: all partners of a fixed first hex. -/
def linePathRowOK (a : Nat) : Bool :=
  allHexIds.all fun b => linePathClaimCheck a b

set_option maxHeartbeats 800000 in
theorem linePathRow_1 : linePathRowOK 1 = true := by decide

set_option maxHeartbeats 800000 in
theorem linePathRow_2 : linePathRowOK 2 = true := by decide

set_option maxHeartbeats 800000 in
theorem linePathRow_3 : linePathRowOK 3 = true := by decide

set_option maxHeartbeats 800000 in
theorem linePathRow_4 : linePathRowOK 4 = true := by decide

set_option maxHeartbeats 800000 in
theorem linePathRow_5 : linePathRowOK 5 = true := by decide

set_option maxHeartbeats 800000 in
theorem linePathRow_6 : linePathRowOK 6 = true := by decide

set_option maxHeartbeats 800000 in
theorem linePathRow_7 : linePathRowOK 7 = true := by decide

set_option maxHeartbeats 800000 in
theorem linePathRow_8 : linePathRowOK 8 = true := by decide

set_option maxHeartbeats 800000 in
theorem linePathRow_9 : linePathRowOK 9 = true := by decide

set_option maxHeartbeats 800000 in
theorem linePathRow_10 : linePathRowOK 10 = true := by decide

set_option maxHeartbeats 800000 in
theorem linePathRow_11 : linePathRowOK 11 = true := by decide

set_option maxHeartbeats 800000 in
theorem linePathRow_12 : linePathRowOK 12 = true := by decide

set_option maxHeartbeats 800000 in
theorem linePathRow_13 : linePathRowOK 13 = true := by decide

set_option maxHeartbeats 800000 in
theorem linePathRow_14 : linePathRowOK 14 = true := by decide

set_option maxHeartbeats 800000 in
theorem linePathRow_15 : linePathRowOK 15 = true := by decide

set_option maxHeartbeats 800000 in
theorem linePathRow_16 : linePathRowOK 16 = true := by decide

set_option maxHeartbeats 800000 in
theorem linePathRow_17 : linePathRowOK 17 = true := by decide

set_option maxHeartbeats 800000 in
theorem linePathRow_18 : linePathRowOK 18 = true := by decide

set_option maxHeartbeats 800000 in
theorem linePathRow_19 : linePathRowOK 19 = true := by decide

set_option maxHeartbeats 800000 in
theorem linePathRow_20 : linePathRowOK 20 = true := by decide

set_option maxHeartbeats 800000 in
theorem linePathRow_21 : linePathRowOK 21 = true := by decide

set_option maxHeartbeats 800000 in
theorem linePathRow_22 : linePathRowOK 22 = true := by decide

set_option maxHeartbeats 800000 in
theorem linePathRow_23 : linePathRowOK 23 = true := by decide

set_option maxHeartbeats 800000 in
theorem linePathRow_24 : linePathRowOK 24 = true := by decide

set_option maxHeartbeats 800000 in
theorem linePathRow_25 : linePathRowOK 25 = true := by decide

set_option maxHeartbeats 800000 in
theorem linePathRow_26 : linePathRowOK 26 = true := by decide

set_option maxHeartbeats 800000 in
theorem linePathRow_27 : linePathRowOK 27 = true := by decide

set_option maxHeartbeats 800000 in
theorem linePathRow_28 : linePathRowOK 28 = true := by decide

set_option maxHeartbeats 800000 in
theorem linePathRow_29 : linePathRowOK 29 = true := by decide

set_option maxHeartbeats 800000 in
theorem linePathRow_30 : linePathRowOK 30 = true := by decide

set_option maxHeartbeats 800000 in
theorem linePathRow_31 : linePathRowOK 31 = true := by decide

set_option maxHeartbeats 800000 in
theorem linePathRow_32 : linePathRowOK 32 = true := by decide

set_option maxHeartbeats 800000 in
theorem linePathRow_33 : linePathRowOK 33 = true := by decide

set_option maxHeartbeats 800000 in
theorem linePathRow_34 : linePathRowOK 34 = true := by decide

set_option maxHeartbeats 800000 in
theorem linePathRow_35 : linePathRowOK 35 = true := by decide

set_option maxHeartbeats 800000 in
theorem linePathRow_36 : linePathRowOK 36 = true := by decide

set_option maxHeartbeats 800000 in
theorem linePathRow_37 : linePathRowOK 37 = true := by decide

set_option maxHeartbeats 800000 in
theorem linePathRow_38 : linePathRowOK 38 = true := by decide

set_option maxHeartbeats 800000 in
theorem linePathRow_39 : linePathRowOK 39 = true := by decide

set_option maxHeartbeats 800000 in
theorem linePathRow_40 : linePathRowOK 40 = true := by decide

set_option maxHeartbeats 800000 in
theorem linePathRow_41 : linePathRowOK 41 = true := by decide
/-- Claim C9: for every pair of board hexes, `getLinePath a b` is `none`
exactly when `a` and `b` share no cubic axis or the stepped line between
them leaves the 41-hex board, and otherwise yields the hexes strictly
after `a` up to and including `b`: a list of length `hexDistance a b`
whose last element is `b` (empty exactly when `a = b`), as packaged in
`linePathClaimCheck`. -/
theorem getLinePath_spec : ∀ a ∈ allHexIds, ∀ b ∈ allHexIds, linePathClaimCheck a b = true := by
  intro a ha b hb
  have hbounds : 1 ≤ a ∧ a < 42 := by
    simpa [allHexIds, List.mem_range'_1] using ha
  have hrow : linePathRowOK a = true := by
    obtain ⟨h1, h2⟩ := hbounds
    interval_cases a
    exacts [linePathRow_1, linePathRow_2, linePathRow_3, linePathRow_4,
      linePathRow_5, linePathRow_6, linePathRow_7, linePathRow_8, linePathRow_9,
      linePathRow_10, linePathRow_11, linePathRow_12, linePathRow_13,
      linePathRow_14, linePathRow_15, linePathRow_16, linePathRow_17,
      linePathRow_18, linePathRow_19, linePathRow_20, linePathRow_21,
      linePathRow_22, linePathRow_23, linePathRow_24, linePathRow_25,
      linePathRow_26, linePathRow_27, linePathRow_28, linePathRow_29,
      linePathRow_30, linePathRow_31, linePathRow_32, linePathRow_33,
      linePathRow_34, linePathRow_35, linePathRow_36, linePathRow_37,
      linePathRow_38, linePathRow_39, linePathRow_40, linePathRow_41]
  exact List.all_eq_true.mp hrow b hb

/-- Witness for C9 at hexes 1 and 19 (collinear along the `s` axis). -/
theorem getLinePath_spec_witness :
    1 ∈ allHexIds ∧ 19 ∈ allHexIds ∧ linePathClaimCheck 1 19 = true :=
  ⟨by decide, by decide, getLinePath_spec 1 (by decide) 19 (by decide)⟩

/-! ## Claim C8 — replay determinism and the deck shuffle -/

/-- A state whose deck is one card from exhaustion with a non-trivial
discard pile: using the special ability from here reshuffles. -/
def reshuffleProbeState : GameState :=
  { initState with
    specialDeck :=
      { deck := [⟨"move-3-line", "Move 3 in a Line", "Move up to 3 hexes in a straight line."⟩],
        discard :=
          [⟨"start-of-turn", "Use Start of Turn",
            "Perform your Start of Turn ability (even if skipped)."⟩,
           ⟨"move-2-ignore", "Move 2, Ignore Terrain",
            "Move up to 2 hexes, ignoring terrain and other Elementals."⟩],
        noReshuffle := false } }

/-- Claim C8 is false as stated: the deck shuffle calls the ambient
`Math.random()` (modelled as the stream argument, which is not part of the
`GameState`), so the same special-ability engine call on the very same
state yields different final states for different ambient draws — the
randomness is not isolated behind an injectable source. -/
theorem replay_determinism_counterexample :
    (executeSpecialAbility (fun _ => 0) reshuffleProbeState).specialDeck
      ≠ (executeSpecialAbility (fun _ => 1) reshuffleProbeState).specialDeck := by
  decide

/-- Claim C8, amended: all engine operations are pure functions of the
state except for the deck shuffle, which draws from the ambient
`Math.random()` stream; a special-ability call is therefore deterministic
(independent of the ambient stream) exactly as long as it does not trigger
the discard reshuffle — in particular whenever reshuffling is disabled or
the draw pile does not have exactly one card left. -/
theorem replay_deterministic_without_reshuffle (s : GameState) (r1 r2 : Nat → Nat)
    (hnr : s.specialDeck.noReshuffle = true ∨ s.specialDeck.deck.length ≠ 1) :
    executeSpecialAbility r1 s = executeSpecialAbility r2 s := by
  unfold executeSpecialAbility Deck.useActiveCard
  match hd : s.specialDeck.deck with
  | [] => rfl
  | [x] =>
      have hnr' : s.specialDeck.noReshuffle = true := by
        rcases hnr with h | h
        · exact h
        · exact absurd (by rw [hd]; rfl : s.specialDeck.deck.length = 1) h
      simp [hnr']
  | x :: y :: rest => simp

/-- Witness for the amended C8: from the initial scenario (12-card deck)
the special-ability call is stream-independent. -/
theorem replay_deterministic_without_reshuffle_witness :
    executeSpecialAbility (fun _ => 3) initState = executeSpecialAbility (fun _ => 7) initState :=
  replay_deterministic_without_reshuffle initState _ _ (Or.inr (by decide))

/-! ## Membership infrastructure for the reachability machine -/

theorem allHexIds_nodup : allHexIds.Nodup := List.nodup_range' 1 41

theorem axialToId_mem {q r : Int} {id : Nat} (h : axialToId q r = some id) :
    id ∈ allHexIds :=
  List.mem_of_find?_eq_some h

theorem getNeighbors_subset (h : Nat) : ∀ n ∈ getNeighbors h, n ∈ allHexIds := by
  intro n hn
  unfold getNeighbors at hn
  rcases hax : hexAxial h with _ | ⟨q, r⟩ <;> rw [hax] at hn
  · cases hn
  · obtain ⟨d, _, hd⟩ := List.mem_filterMap.mp hn
    exact axialToId_mem hd

theorem lineHexesInDir_subset (q r dq dr : Int) :
    ∀ n, ∀ x ∈ lineHexesInDir q r dq dr n, x ∈ allHexIds := by
  intro n
  induction n generalizing q r with
  | zero => intro x hx; cases hx
  | succ n ih =>
      intro x hx
      unfold lineHexesInDir at hx
      rcases hid : axialToId (q + dq) (r + dr) with _ | id <;> rw [hid] at hx
      · cases hx
      · rcases List.mem_cons.mp hx with h | h
        · exact h ▸ axialToId_mem hid
        · exact ih _ _ x h

theorem getLineHexes_subset (h range : Nat) :
    ∀ l ∈ getLineHexes h range, ∀ x ∈ l, x ∈ allHexIds := by
  intro l hl x hx
  unfold getLineHexes at hl
  rcases hax : hexAxial h with _ | ⟨q, r⟩ <;> rw [hax] at hl
  · cases hl
  · obtain ⟨d, _, hd⟩ := List.mem_map.mp hl
    exact lineHexesInDir_subset q r d.1 d.2 range x (hd ▸ hx)

theorem mem_eraseDups_loop {α : Type} [BEq α] [LawfulBEq α] (a : α) :
    ∀ (l r : List α), a ∈ List.eraseDups.loop l r ↔ a ∈ r ∨ a ∈ l := by
  intro l
  induction l with
  | nil =>
      intro r
      simp [List.eraseDups.loop]
  | cons x l ih =>
      intro r
      by_cases hx : x ∈ r
      · have hstep : List.eraseDups.loop (x :: l) r = List.eraseDups.loop l r := by
          simp [List.eraseDups.loop, hx]
        have hxr : x ∈ r := hx
        rw [hstep, ih]
        constructor
        · rintro (h | h)
          · exact Or.inl h
          · exact Or.inr (List.mem_cons_of_mem x h)
        · rintro (h | h)
          · exact Or.inl h
          · rcases List.mem_cons.mp h with h | h
            · exact Or.inl (h ▸ hxr)
            · exact Or.inr h
      · have hstep : List.eraseDups.loop (x :: l) r = List.eraseDups.loop l (x :: r) := by
          simp [List.eraseDups.loop, hx]
        rw [hstep, ih]
        simp [List.mem_cons]
        tauto

theorem mem_eraseDups {α : Type} [BEq α] [LawfulBEq α] {a : α} {l : List α} :
    a ∈ l.eraseDups ↔ a ∈ l := by
  unfold List.eraseDups
  rw [mem_eraseDups_loop]
  simp

/-- Elements collected by the reachable-set BFS come from its initial
accumulator or are neighbors of something, hence on the board. -/
theorem reachableLoop_subset (ce cp : Nat → Bool) (range : Nat) :
    ∀ (fuel : Nat) (visited : List Nat) (queue : List (Nat × Nat)) (reach : List Nat),
      ∀ x ∈ reachableLoop ce cp range fuel visited queue reach,
        x ∈ reach ∨ x ∈ allHexIds := by
  intro fuel
  induction fuel with
  | zero => intro _ _ reach x hx; exact Or.inl hx
  | succ fuel ih =>
      intro visited queue reach x hx
      match queue with
      | [] => exact Or.inl hx
      | (current, dist) :: queue =>
          rw [reachableLoop] at hx
          by_cases hd : range ≤ dist
          · rw [if_pos hd] at hx
            exact ih visited queue reach x hx
          · rw [if_neg hd] at hx
            rcases ih _ _ _ x hx with h | h
            · -- x is in the fold's accumulated reach: either old reach or a neighbor
              clear hx
              have hfold : ∀ (ns : List Nat) (acc : List Nat × List (Nat × Nat) × List Nat),
                  (∀ y ∈ acc.2.2, y ∈ reach ∨ y ∈ allHexIds) →
                  (∀ y ∈ ns, y ∈ allHexIds) →
                  ∀ y ∈ (ns.foldl (reachStep ce cp dist) acc).2.2,
                    y ∈ reach ∨ y ∈ allHexIds := by
                intro ns
                induction ns with
                | nil => intro acc hacc _ y hy; exact hacc y hy
                | cons n ns ihn =>
                    intro acc hacc hns y hy
                    refine ihn _ ?_ (fun z hz => hns z (List.mem_cons_of_mem n hz)) y hy
                    intro z hz
                    unfold reachStep at hz
                    split at hz
                    · exact hacc z hz
                    · split at hz
                      · exact hacc z hz
                      · rcases List.mem_append.mp hz with h | h
                        · exact hacc z h
                        · rw [List.mem_singleton.mp h]
                          exact Or.inr (hns n (List.mem_cons_self n ns))
              exact hfold (getNeighbors current) (visited, queue, reach)
                (fun y hy => Or.inl hy) (getNeighbors_subset current) x h
            · exact Or.inr h

theorem getReachableHexes_subset (start range : Nat) (ce cp : Nat → Bool) :
    ∀ x ∈ getReachableHexes start range ce cp, x ∈ allHexIds := by
  intro x hx
  rcases reachableLoop_subset ce cp range 100 [start] [(start, 0)] [] x hx with h | h
  · cases h
  · exact h

theorem getFogMoveTargets_subset (s : GameState) (fogHex range : Nat) :
    ∀ x ∈ getFogMoveTargets s fogHex range, x = fogHex ∨ x ∈ allHexIds := by
  intro x hx
  rcases reachableLoop_subset _ _ range 100 [fogHex] [(fogHex, 0)] [fogHex] x hx with h | h
  · exact Or.inl (List.mem_singleton.mp h)
  · exact Or.inr h

/-- Elements collected by the connected-fire BFS come from its initial
connected set or the board. -/
theorem connectedFireLoop_subset (s : GameState) :
    ∀ (fuel : Nat) (queue connected : List Nat),
      ∀ x ∈ connectedFireLoop s fuel queue connected,
        x ∈ connected ∨ x ∈ allHexIds := by
  intro fuel
  induction fuel with
  | zero => intro _ connected x hx; exact Or.inl hx
  | succ fuel ih =>
      intro queue connected x hx
      match queue with
      | [] => exact Or.inl hx
      | current :: queue =>
          rw [connectedFireLoop] at hx
          rcases ih _ _ x hx with h | h
          · clear hx
            have hfold : ∀ (ns : List Nat) (acc : List Nat × List Nat),
                (∀ y ∈ acc.2, y ∈ connected ∨ y ∈ allHexIds) →
                (∀ y ∈ ns, y ∈ allHexIds) →
                ∀ y ∈ (ns.foldl (connectedStep s) acc).2, y ∈ connected ∨ y ∈ allHexIds := by
              intro ns
              induction ns with
              | nil => intro acc hacc _ y hy; exact hacc y hy
              | cons n ns ihn =>
                  intro acc hacc hns y hy
                  refine ihn _ ?_ (fun z hz => hns z (List.mem_cons_of_mem n hz)) y hy
                  intro z hz
                  unfold connectedStep at hz
                  split at hz
                  · rcases List.mem_append.mp hz with h | h
                    · exact hacc z h
                    · rw [List.mem_singleton.mp h]
                      exact Or.inr (hns n (List.mem_cons_self n ns))
                  · exact hacc z hz
            exact hfold (getNeighbors current) (queue, connected)
              (fun y hy => Or.inl hy) (getNeighbors_subset current) x h
          · exact Or.inr h

theorem getConnectedFire_subset (s : GameState) (start : Nat) :
    ∀ x ∈ getConnectedFire s start, x = start ∨ x ∈ allHexIds := by
  intro x hx
  rcases connectedFireLoop_subset s 100 [start] [start] x hx with h | h
  · exact Or.inl (List.mem_singleton.mp h)
  · exact Or.inr h

/-! ## Claim C2 — token conservation -/

/-- The fixed token totals of the claim: mountain 4, forest 3, fire 12,
lake 5, fog 2 (the initial supplies plus the tokens set up on the board). -/
def tokenTotal : TokenType → Nat
  | .mountain => 4
  | .forest => 3
  | .fire => 12
  | .lake => 5
  | .fog => 2

/-- The sum of the three players' supplies of a token type. -/
def GameState.supplySum (s : GameState) (t : TokenType) : Nat :=
  (s.players .earth).supplies t + (s.players .water).supplies t +
    (s.players .fire).supplies t

/-- The conservation invariant of the claim. -/
def conserved (s : GameState) : Prop :=
  ∀ t, s.supplySum t + s.countTokensOnBoard t = tokenTotal t

instance (s : GameState) : Decidable (conserved s) :=
  decidable_of_iff
    (∀ t ∈ [TokenType.mountain, .forest, .fire, .lake, .fog],
      s.supplySum t + s.countTokensOnBoard t = tokenTotal t)
    (by
      constructor
      · intro h t
        exact h t (by cases t <;> simp)
      · intro h t _
        exact h t)

/-- Summing a function changed at one point of a duplicate-free list. -/
theorem sum_map_update (l : List Nat) (f g : Nat → Nat) (x : Nat) :
    l.Nodup → x ∈ l → (∀ y ∈ l, y ≠ x → g y = f y) →
    (l.map g).sum + f x = (l.map f).sum + g x := by
  induction l with
  | nil => intro _ hx; cases hx
  | cons a l ih =>
      intro hnd hx hagree
      rcases List.mem_cons.mp hx with rfl | hx
      · have hrest : ∀ y ∈ l, g y = f y := by
          intro y hy
          have hne : y ≠ x := fun he => (List.nodup_cons.mp hnd).1 (he ▸ hy)
          exact hagree y (List.mem_cons_of_mem x hy) hne
        have : (l.map g).sum = (l.map f).sum := by
          have : l.map g = l.map f := List.map_congr_left hrest
          rw [this]
        simp only [List.map_cons, List.sum_cons]
        omega
      · have hax : a ≠ x := fun heq => (List.nodup_cons.mp hnd).1 (heq ▸ hx)
        have hga : g a = f a := hagree a (List.mem_cons_self a l) hax
        have := ih (List.nodup_cons.mp hnd).2 hx
          fun y hy hne => hagree y (List.mem_cons_of_mem a hy) hne
        simp only [List.map_cons, List.sum_cons, hga]
        omega

/-- `countTokensOnBoard` after changing one on-board cell. -/
theorem countTokensOnBoard_setHex (s : GameState) (h : Nat) (c : HexState)
    (hh : h ∈ allHexIds) (tok : TokenType) :
    (s.setHex h c).countTokensOnBoard tok + (s.board h).tokens.count tok
      = s.countTokensOnBoard tok + c.tokens.count tok := by
  unfold GameState.countTokensOnBoard
  have key := sum_map_update allHexIds
    (fun h' => (s.board h').tokens.count tok)
    (fun h' => ((s.setHex h c).board h').tokens.count tok)
    h allHexIds_nodup hh
    (fun y _ hy => by simp only [board_setHex, if_neg hy])
  simpa [board_setHex] using key

theorem countTokensOnBoard_addToken (s : GameState) (h : Nat) (tok : TokenType)
    (hh : h ∈ allHexIds) (t : TokenType) :
    (s.addToken h tok).countTokensOnBoard t
      = s.countTokensOnBoard t + if t = tok then 1 else 0 := by
  have key := countTokensOnBoard_setHex s h
    { s.getHex h with tokens := (s.getHex h).tokens ++ [tok] } hh t
  have hc : ({ s.getHex h with tokens := (s.getHex h).tokens ++ [tok] } : HexState).tokens.count t
      = (s.board h).tokens.count t + if t = tok then 1 else 0 := by
    by_cases ht : t = tok
    · subst ht
      simp [GameState.getHex, List.count_append]
    · simp [GameState.getHex, List.count_append, List.count_singleton, ht]
  rw [hc] at key
  unfold GameState.addToken
  omega

theorem countTokensOnBoard_removeToken (s : GameState) (h : Nat) (tok : TokenType)
    (hh : h ∈ allHexIds) (t : TokenType) :
    (s.removeToken h tok).countTokensOnBoard t
        + (if t = tok ∧ s.hasToken h tok then 1 else 0)
      = s.countTokensOnBoard t := by
  have key := countTokensOnBoard_setHex s h
    { s.getHex h with tokens := (s.getHex h).tokens.erase tok } hh t
  have hkc : ({ s.getHex h with tokens := (s.getHex h).tokens.erase tok } : HexState).tokens
      = (s.board h).tokens.erase tok := rfl
  rw [hkc] at key
  have herase_eq : ((s.board h).tokens.erase tok).count t
      + (if t = tok ∧ s.hasToken h tok then 1 else 0) = (s.board h).tokens.count t := by
    by_cases ht : t = tok
    · subst ht
      by_cases hpres : s.hasToken h t
      · have hmem : t ∈ (s.board h).tokens := by
          have h2 := hpres
          unfold GameState.hasToken GameState.getHex at h2
          simpa using h2
        have hpos : 0 < (s.board h).tokens.count t := List.count_pos_iff.mpr hmem
        rw [List.count_erase_self, if_pos ⟨rfl, hpres⟩]
        omega
      · have hnomem : t ∉ (s.board h).tokens := fun hmem => hpres (by
          unfold GameState.hasToken GameState.getHex
          simpa using hmem)
        have hzero : (s.board h).tokens.count t = 0 := List.count_eq_zero.mpr hnomem
        rw [List.count_erase_self, hzero, if_neg (fun hc => hpres hc.2)]
    · rw [List.count_erase_of_ne ht, if_neg (fun hc => ht hc.1)]
      omega
  unfold GameState.removeToken
  omega

/-- `supplySum` is unchanged by board-only updates. -/
theorem supplySum_setHex (s : GameState) (h : Nat) (c : HexState) (t : TokenType) :
    (s.setHex h c).supplySum t = s.supplySum t := rfl

theorem supplySum_returnToken (s : GameState) (tok : TokenType) (t : TokenType) :
    (s.returnTokenToSupply tok).supplySum t
      = s.supplySum t + if t = tok then 1 else 0 := by
  unfold GameState.supplySum
  rw [supplies_returnToken, supplies_returnToken, supplies_returnToken]
  by_cases ht : t = tok
  · rw [ht]
    cases ho : getTokenOwner tok <;> simp [ho] <;> omega
  · simp [ht]

theorem supplySum_takeFromSupply (s : GameState) (p : ElementalType) (tok : TokenType)
    (t : TokenType) :
    (s.takeFromSupply p tok).supplySum t
        + (if t = tok ∧ s.takeOk p tok then 1 else 0)
      = s.supplySum t := by
  unfold GameState.takeFromSupply GameState.takeOk supplySum GameState.getPlayer
  by_cases hok : 0 < (s.players p).supplies tok
  · rw [if_neg (by omega)]
    simp only [players_setPlayer]
    by_cases ht : t = tok
    · subst ht
      cases p <;> simp [hok] <;> omega
    · cases p <;> simp [ht, hok]
  · rw [if_pos (by omega)]
    simp only [hok, and_false, if_neg, not_false_iff]
    simp

/-- Conservation is untouched by operations that change neither any
on-board token list nor any supply map. -/
theorem conserved_congr (s s' : GameState)
    (hb : ∀ h ∈ allHexIds, (s'.board h).tokens = (s.board h).tokens)
    (hp : ∀ p k, (s'.players p).supplies k = (s.players p).supplies k) :
    conserved s → conserved s' := by
  intro hc t
  have hcount : s'.countTokensOnBoard t = s.countTokensOnBoard t := by
    unfold GameState.countTokensOnBoard
    congr 1
    exact List.map_congr_left fun h hh => by rw [hb h hh]
  have hsup : s'.supplySum t = s.supplySum t := by
    unfold GameState.supplySum
    rw [hp, hp, hp]
  rw [hcount, hsup]
  exact hc t

theorem conserved_destroyToken (s : GameState) (h : Nat) (tok : TokenType)
    (hh : h ∈ allHexIds) (hc : conserved s) : conserved (s.destroyToken h tok) := by
  unfold GameState.destroyToken
  split
  · rename_i hpres
    intro t
    have hcount := countTokensOnBoard_removeToken s h tok hh t
    have hcount2 : ((s.removeToken h tok).returnTokenToSupply tok).countTokensOnBoard t
        = (s.removeToken h tok).countTokensOnBoard t := rfl
    have hsup := supplySum_returnToken (s.removeToken h tok) tok t
    have hsup2 : (s.removeToken h tok).supplySum t = s.supplySum t := rfl
    have hbase := hc t
    rw [hcount2, hsup, hsup2]
    by_cases ht : t = tok
    · rw [if_pos ht]
      rw [if_pos ⟨ht, hpres⟩] at hcount
      omega
    · rw [if_neg ht]
      rw [if_neg (fun hand => ht hand.1)] at hcount
      omega
  · exact hc

theorem conserved_take_add (s : GameState) (p : ElementalType) (tok : TokenType) (h : Nat)
    (hh : h ∈ allHexIds) (hok : s.takeOk p tok = true) (hc : conserved s) :
    conserved ((s.takeFromSupply p tok).addToken h tok) := by
  intro t
  have hcount := countTokensOnBoard_addToken (s.takeFromSupply p tok) h tok hh t
  have hcount2 : (s.takeFromSupply p tok).countTokensOnBoard t = s.countTokensOnBoard t := by
    unfold GameState.countTokensOnBoard
    exact congrArg List.sum (List.map_congr_left fun x _ => by rw [board_takeFromSupply])
  have hsup := supplySum_takeFromSupply s p tok t
  have hsup2 : ((s.takeFromSupply p tok).addToken h tok).supplySum t
      = (s.takeFromSupply p tok).supplySum t := rfl
  have hbase := hc t
  rw [hsup2, hcount, hcount2]
  by_cases ht : t = tok
  · rw [if_pos ht]
    rw [if_pos ⟨ht, hok⟩] at hsup
    omega
  · rw [if_neg ht]
    rw [if_neg (fun hand => ht hand.1)] at hsup
    omega

/-- Moving one token between two on-board hexes (the token being present at
the source) conserves the totals. -/
theorem conserved_remove_add (s : GameState) (hfrom hto : Nat) (tok : TokenType)
    (h1 : hfrom ∈ allHexIds) (h2 : hto ∈ allHexIds) (hpres : s.hasToken hfrom tok)
    (hc : conserved s) : conserved ((s.removeToken hfrom tok).addToken hto tok) := by
  intro t
  have hrm := countTokensOnBoard_removeToken s hfrom tok h1 t
  have hadd := countTokensOnBoard_addToken (s.removeToken hfrom tok) hto tok h2 t
  have hsup : ((s.removeToken hfrom tok).addToken hto tok).supplySum t = s.supplySum t := rfl
  have hbase := hc t
  rw [hsup, hadd]
  by_cases ht : t = tok
  · rw [if_pos ht]
    rw [if_pos ⟨ht, hpres⟩] at hrm
    omega
  · rw [if_neg ht]
    rw [if_neg (fun hand => ht hand.1)] at hrm
    omega

/-! Frame facts: which operations leave positions / the forced-move record
untouched. -/

theorem frame_destroyToken (s : GameState) (h : Nat) (tok : TokenType) :
    (∀ p, ((s.destroyToken h tok).players p).hexId = (s.players p).hexId) ∧
    (s.destroyToken h tok).pendingForcedMove = s.pendingForcedMove := by
  constructor
  · intro p
    unfold GameState.destroyToken GameState.returnTokenToSupply
    split
    · simp only [players_removeToken, players_setPlayer, GameState.getPlayer]
      split
      · rename_i hsp
        rw [hsp]
      · rfl
    · rfl
  · unfold GameState.destroyToken
    split <;> rfl

theorem frame_takeFromSupply (s : GameState) (q : ElementalType) (tok : TokenType) :
    (∀ p, ((s.takeFromSupply q tok).players p).hexId = (s.players p).hexId) ∧
    (s.takeFromSupply q tok).pendingForcedMove = s.pendingForcedMove := by
  constructor
  · intro p
    unfold GameState.takeFromSupply
    split
    · rfl
    · simp only [players_setPlayer, GameState.getPlayer]
      split
      · rename_i hsp
        rw [hsp]
      · rfl
  · unfold GameState.takeFromSupply
    split <;> rfl

theorem conserved_handleEarthConversion (s : GameState) (h : Nat)
    (hh : h ∈ allHexIds) (hc : conserved s) : conserved (handleEarthConversion s h) := by
  unfold handleEarthConversion
  split
  · have h1 := conserved_destroyToken s h .lake hh hc
    dsimp only
    split
    · rename_i hok
      exact conserved_take_add _ .earth .forest h hh hok h1
    · exact h1
  · exact hc

theorem conserved_handleWaterConversion (s : GameState) (h : Nat)
    (hh : h ∈ allHexIds) (hc : conserved s) : conserved (handleWaterConversion s h) := by
  unfold handleWaterConversion
  split
  · have h1 := conserved_destroyToken s h .fire hh hc
    dsimp only
    split
    · rename_i hok
      have h2 := conserved_take_add _ .water .lake h hh hok h1
      split
      · rename_i hfog
        have hfog' : ((((s.destroyToken h .fire).takeFromSupply .water .lake).addToken h
            .lake).takeOk .water .fog) = true := by
          have := (Bool.and_eq_true _ _).mp hfog
          unfold GameState.takeOk
          simpa using this.2
        exact conserved_take_add _ .water .fog h hh hfog' h2
      · exact h2
    · exact h1
  · exact hc

theorem conserved_handleFireConversion (s : GameState) (h : Nat)
    (hh : h ∈ allHexIds) (hc : conserved s) : conserved (handleFireConversion s h) := by
  unfold handleFireConversion
  split
  · have h1 := conserved_destroyToken s h .forest hh hc
    dsimp only
    split
    · rename_i hok
      exact conserved_take_add _ .fire .fire h hh hok h1
    · exact h1
  · exact hc

/-- `setElementalOnHex` changes no token list and no supply map. -/
theorem conserved_setElementalOnHex (s : GameState) (h : Nat) (e : ElementalType)
    (hc : conserved s) : conserved (s.setElementalOnHex h e) := by
  refine conserved_congr s _ (fun x _ => tokens_setElementalOnHex s h e x) (fun p k => ?_) hc
  rw [players_setElementalOnHex]
  split <;> rfl

theorem tokens_setStoneMinion (s : GameState) (t : Nat) (h : Nat) :
    ((s.setStoneMinion t).board h).tokens = (s.board h).tokens := by
  rw [board_setStoneMinion]
  split <;> rfl

theorem conserved_setStoneMinion (s : GameState) (t : Nat) (hc : conserved s) :
    conserved (s.setStoneMinion t) :=
  conserved_congr s _ (fun x _ => tokens_setStoneMinion s t x) (fun _ _ => rfl) hc

theorem conserved_addLog (s : GameState) (m : String) (hc : conserved s) :
    conserved (s.addLog m) :=
  conserved_congr s _ (fun _ _ => rfl) (fun _ _ => rfl) hc

theorem conserved_handleFireOnEarth (s : GameState) (hc : conserved s) :
    conserved (handleFireOnEarth s) := by
  unfold handleFireOnEarth
  dsimp only
  split
  · exact conserved_addLog _ _ (conserved_congr s _ (fun _ _ => rfl) (fun _ _ => rfl) hc)
  · exact conserved_congr s _ (fun _ _ => rfl) (fun _ _ => rfl) hc

/-- The destruction loop of the earth start-of-turn conserves the totals
(each destroyed token goes back to a supply). -/
theorem conserved_destroyAllAt (h : Nat) (hh : h ∈ allHexIds) :
    ∀ (toks : List TokenType) (s : GameState), conserved s →
      conserved (destroyAllAt s h toks)
  | [], _, hc => hc
  | tok :: rest, s, hc =>
      conserved_destroyAllAt h hh rest (s.destroyToken h tok)
        (conserved_destroyToken s h tok hh hc)

/-- One neighbor-token scan of the chain destruction: conservation and the
frame facts, plus every pushed hex is a board hex. -/
theorem chainScanTok_fold (n : Nat) (hn : n ∈ allHexIds) :
    ∀ (toks : List TokenType) (acc : GameState × List Nat),
      conserved acc.1 → (∀ x ∈ acc.2, x ∈ allHexIds) →
      conserved (toks.foldl (chainScanTok n) acc).1 ∧
      (∀ x ∈ (toks.foldl (chainScanTok n) acc).2, x ∈ allHexIds) ∧
      (∀ p, (((toks.foldl (chainScanTok n) acc).1).players p).hexId
        = (acc.1.players p).hexId) ∧
      ((toks.foldl (chainScanTok n) acc).1).pendingForcedMove
        = acc.1.pendingForcedMove
  | [], acc, hc, hs => ⟨hc, hs, fun _ => rfl, rfl⟩
  | tok :: rest, acc, hc, hs => by
      have hstep : conserved (chainScanTok n acc tok).1 ∧
          (∀ x ∈ (chainScanTok n acc tok).2, x ∈ allHexIds) ∧
          (∀ p, ((chainScanTok n acc tok).1.players p).hexId = (acc.1.players p).hexId) ∧
          (chainScanTok n acc tok).1.pendingForcedMove = acc.1.pendingForcedMove := by
        unfold chainScanTok
        split
        · exact ⟨hc, hs, fun _ => rfl, rfl⟩
        · split
          · refine ⟨hc, ?_, fun _ => rfl, rfl⟩
            intro x hx
            rcases List.mem_cons.mp hx with rfl | hx
            · exact hn
            · exact hs x hx
          · exact ⟨conserved_destroyToken acc.1 n tok hn hc, hs,
              (frame_destroyToken acc.1 n tok).1, (frame_destroyToken acc.1 n tok).2⟩
      obtain ⟨h1, h2, h3, h4⟩ :=
        chainScanTok_fold n hn rest (chainScanTok n acc tok) hstep.1 hstep.2.1
      exact ⟨h1, h2, fun p => (h3 p).trans (hstep.2.2.1 p), h4.trans hstep.2.2.2⟩

theorem chainScanNeighbor_fold :
    ∀ (ns : List Nat) (acc : GameState × List Nat),
      (∀ x ∈ ns, x ∈ allHexIds) → conserved acc.1 → (∀ x ∈ acc.2, x ∈ allHexIds) →
      conserved (ns.foldl chainScanNeighbor acc).1 ∧
      (∀ x ∈ (ns.foldl chainScanNeighbor acc).2, x ∈ allHexIds) ∧
      (∀ p, ((ns.foldl chainScanNeighbor acc).1.players p).hexId
        = (acc.1.players p).hexId) ∧
      (ns.foldl chainScanNeighbor acc).1.pendingForcedMove = acc.1.pendingForcedMove
  | [], acc, _, hc, hs => ⟨hc, hs, fun _ => rfl, rfl⟩
  | n :: rest, acc, hns, hc, hs => by
      have hn : n ∈ allHexIds := hns n (List.mem_cons_self n rest)
      obtain ⟨h1, h2, h3, h4⟩ :=
        chainScanTok_fold n hn (acc.1.getHex n).tokens acc hc hs
      obtain ⟨g1, g2, g3, g4⟩ := chainScanNeighbor_fold rest
        ((acc.1.getHex n).tokens.foldl (chainScanTok n) acc)
        (fun x hx => hns x (List.mem_cons_of_mem n hx)) h1 h2
      exact ⟨g1, g2, fun p => (g3 p).trans (h3 p), g4.trans h4⟩

/-- The chain-destruction worklist conserves the totals and moves no
player, for any fuel, as long as the worklist holds board hexes. -/
theorem chainLoop_invariants :
    ∀ (fuel : Nat) (s : GameState) (stack processed : List Nat),
      (∀ x ∈ stack, x ∈ allHexIds) → conserved s →
      conserved (chainLoop fuel s stack processed) ∧
      (∀ p, ((chainLoop fuel s stack processed).players p).hexId
        = (s.players p).hexId) ∧
      (chainLoop fuel s stack processed).pendingForcedMove = s.pendingForcedMove
  | 0, _, _, _, _, hc => ⟨hc, fun _ => rfl, rfl⟩
  | _ + 1, _, [], _, _, hc => ⟨hc, fun _ => rfl, rfl⟩
  | fuel + 1, s, current :: stack, processed, hstack, hc => by
      rw [chainLoop]
      split
      · exact chainLoop_invariants fuel s stack processed
          (fun x hx => hstack x (List.mem_cons_of_mem current hx)) hc
      · split
        · rename_i hmt
          have hcur : current ∈ allHexIds := hstack current (List.mem_cons_self current stack)
          have hc1 := conserved_destroyToken s current .mountain hcur hc
          obtain ⟨h1, h2, h3, h4⟩ := chainScanNeighbor_fold (getNeighbors current)
            (s.destroyToken current .mountain, stack) (getNeighbors_subset current) hc1
            (fun x hx => hstack x (List.mem_cons_of_mem current hx))
          obtain ⟨g1, g2, g3⟩ := chainLoop_invariants fuel _ _ (current :: processed) h2 h1
          refine ⟨g1, fun p => ?_, ?_⟩
          · rw [g2 p, h3 p, (frame_destroyToken s current .mountain).1 p]
          · rw [g3, h4, (frame_destroyToken s current .mountain).2]
        · exact chainLoop_invariants fuel s stack (current :: processed)
            (fun x hx => hstack x (List.mem_cons_of_mem current hx)) hc

/-! ### The invariant bundle and the engine-operation step relation -/

/-- Every player stands on a board hex. -/
def posValid (s : GameState) : Prop := ∀ p, (s.players p).hexId ∈ allHexIds

/-- A recorded forced-move obligation only offers board hexes. -/
def pfValid (s : GameState) : Prop :=
  ∀ fm, s.pendingForcedMove = some fm → ∀ x ∈ fm.validTargets, x ∈ allHexIds

/-- The inductive bundle carrying conservation through the step relation. -/
def InvS (s : GameState) : Prop := conserved s ∧ posValid s ∧ pfValid s

/-! Target sets only offer board hexes (or the mover's own hex). -/

theorem mem_filter_allHexIds {p : Nat → Bool} {t : Nat} (h : t ∈ allHexIds.filter p) :
    t ∈ allHexIds :=
  (List.mem_filter.mp h).1

theorem uprootTargets_all {s t} (h : t ∈ getUprootTargets s) : t ∈ allHexIds :=
  getReachableHexes_subset _ _ _ _ t (List.mem_filter.mp h).1

theorem moveTargets_own_or_all {t own : Nat} {cands : List Nat}
    (hsub : ∀ x ∈ cands, x ∈ allHexIds) (h : t ∈ own :: cands) :
    t = own ∨ t ∈ allHexIds := by
  rcases List.mem_cons.mp h with rfl | h
  · exact Or.inl rfl
  · exact Or.inr (hsub t h)

theorem raiseMoveTargets_own_or_all {s t} (h : t ∈ getRaiseMountainMoveTargets s) :
    t = (s.players .earth).hexId ∨ t ∈ allHexIds :=
  moveTargets_own_or_all
    (fun x hx => getNeighbors_subset _ x (List.mem_filter.mp hx).1) h

theorem landslideMoveTargets_own_or_all {s t} (h : t ∈ getLandslideMoveTargets s) :
    t = (s.players .earth).hexId ∨ t ∈ allHexIds := by
  simp only [getLandslideMoveTargets] at h
  split at h
  · exact Or.inl (List.mem_singleton.mp h)
  · exact moveTargets_own_or_all
      (fun x hx => getReachableHexes_subset _ _ _ _ x (List.mem_filter.mp hx).1) h

theorem moseyTargets_own_or_all {s t} (h : t ∈ getMoseyTargets s) :
    t = (s.players .water).hexId ∨ t ∈ allHexIds :=
  moveTargets_own_or_all
    (fun x hx => getNeighbors_subset _ x (List.mem_filter.mp hx).1) h

theorem conjureTargets_all {s t} (h : t ∈ getConjureTargets s) : t ∈ allHexIds := by
  unfold getConjureTargets at h
  split at h <;> exact mem_filter_allHexIds h

theorem surfTargets_all {s t} (h : t ∈ getSurfTargets s) : t ∈ allHexIds := by
  unfold getSurfTargets at h
  split at h
  · cases h
  · exact mem_filter_allHexIds h

theorem rematTargets_all_and_fog {s t} (h : t ∈ getRematerializeTargets s) :
    t ∈ allHexIds ∧ s.hasToken t .fog :=
  ⟨(List.mem_filter.mp h).1, (List.mem_filter.mp h).2⟩

theorem smokeDashTargets_all {s t} (h : t ∈ getSmokeDashTargets s) : t ∈ allHexIds := by
  unfold getSmokeDashTargets at h
  have h1 := (List.mem_filter.mp (mem_eraseDups.mp h)).1
  obtain ⟨l, hl, hxl⟩ := List.mem_flatten.mp h1
  exact getLineHexes_subset _ _ l hl t hxl

theorem flameDashLine_subset (s : GameState) :
    ∀ (l : List Nat) (x : Nat), x ∈ flameDashLine s l → x ∈ l
  | [], _, hx => by cases hx
  | h :: rest, x, hx => by
      unfold flameDashLine at hx
      rcases List.mem_append.mp hx with h1 | h1
      · split at h1
        · exact List.mem_cons.mpr (Or.inl (List.mem_singleton.mp h1))
        · cases h1
      · split at h1
        · cases h1
        · exact List.mem_cons_of_mem _ (flameDashLine_subset s rest x h1)

theorem flameDashTargets_all {s t} (h : t ∈ getFlameDashTargets s) : t ∈ allHexIds := by
  unfold getFlameDashTargets at h
  obtain ⟨l, hl, hxl⟩ := List.mem_flatten.mp (mem_eraseDups.mp h)
  obtain ⟨l0, hl0, rfl⟩ := List.mem_map.mp hl
  exact getLineHexes_subset _ _ l0 hl0 t (flameDashLine_subset s l0 t hxl)

theorem firestormPlacementTargets_all {s t} (h : t ∈ getFirestormPlacementTargets s) :
    t ∈ allHexIds := by
  unfold getFirestormPlacementTargets getFirestormPlacementTargetsForGroups at h
  obtain ⟨g, _, hg⟩ := List.mem_flatMap.mp (mem_eraseDups.mp h)
  obtain ⟨fh, _, hfh⟩ := List.mem_flatMap.mp hg
  exact getNeighbors_subset fh t (List.mem_filter.mp hfh).1

theorem firestormMoveTargets_own_or_all {s t} (h : t ∈ getFirestormMoveTargets s) :
    t = (s.players .fire).hexId ∨ t ∈ allHexIds := by
  simp only [getFirestormMoveTargets] at h
  have h1 := mem_eraseDups.mp h
  rcases List.mem_cons.mp h1 with rfl | h1
  · exact Or.inl rfl
  · split at h1
    · rcases List.mem_append.mp h1 with h2 | h2
      · exact getConnectedFire_subset s _ t h2
      · split at h2
        · obtain ⟨fh, _, hfh⟩ := List.mem_flatMap.mp h2
          exact Or.inr (getNeighbors_subset fh t (List.mem_filter.mp hfh).1)
        · cases h2
    · split at h1
      · exact Or.inr (getNeighbors_subset _ t (List.mem_filter.mp h1).1)
      · cases h1

theorem firewallPreview_all {s t x} (h : x ∈ getFirewallPreview s t) : x ∈ allHexIds := by
  unfold getFirewallPreview at h
  split at h
  · cases h
  · split at h
    · cases h
    · rename_i hexes hfind
      exact getLineHexes_subset _ _ hexes (List.mem_of_find?_eq_some hfind) x
        (List.mem_filter.mp h).1

theorem fogTokenHexes_all_and_fog {s t} (h : t ∈ getFogTokenHexes s) :
    t ∈ allHexIds ∧ s.hasToken t .fog :=
  ⟨(List.mem_filter.mp h).1, (List.mem_filter.mp h).2⟩

theorem stoneMinionTargets_all {s t} (h : t ∈ getStoneMinonMoveTargets s) :
    t ∈ allHexIds := by
  unfold getStoneMinonMoveTargets at h
  rcases hmin : s.getStoneMinionHex with _ | m <;> rw [hmin] at h <;> dsimp only at h
  · cases h
  · exact getNeighbors_subset m t (List.mem_filter.mp h).1

theorem waterSOTTargets_all {s t} (h : t ∈ getWaterSOTTargets s) : t ∈ allHexIds := by
  unfold getWaterSOTTargets at h
  rcases List.mem_append.mp (mem_eraseDups.mp h) with h1 | h1
  · exact getNeighbors_subset _ t (List.mem_filter.mp h1).1
  · exact mem_filter_allHexIds h1

theorem fireSOTTargets_own_or_all {s t} (h : t ∈ getFireSOTTargets s) :
    t = (s.players .fire).hexId ∨ t ∈ allHexIds := by
  unfold getFireSOTTargets at h
  rcases List.mem_append.mp (mem_eraseDups.mp h) with h1 | h1
  · split at h1
    · exact Or.inl (List.mem_singleton.mp h1)
    · cases h1
  · obtain ⟨id, _, hid⟩ := List.mem_flatMap.mp h1
    exact Or.inr (getNeighbors_subset id t (List.mem_filter.mp hid).1)

theorem sotTargets_own_or_all {s t} (hpos : posValid s) (h : t ∈ getSOTValidTargets s) :
    t ∈ allHexIds := by
  unfold getSOTValidTargets at h
  cases hcp : s.currentPlayer <;> rw [hcp] at h <;> dsimp only at h
  · exact stoneMinionTargets_all h
  · exact waterSOTTargets_all h
  · rcases fireSOTTargets_own_or_all h with h1 | h1
    · rw [h1]
      exact hpos .fire
    · exact h1

/-! Small frame facts (record updates that touch neither positions nor the
forced-move field). -/

theorem pf_addToken (s : GameState) (h : Nat) (tok : TokenType) :
    (s.addToken h tok).pendingForcedMove = s.pendingForcedMove := rfl

theorem pf_setElementalOnHex (s : GameState) (h : Nat) (e : ElementalType) :
    (s.setElementalOnHex h e).pendingForcedMove = s.pendingForcedMove := rfl

theorem pf_addLog (s : GameState) (m : String) :
    (s.addLog m).pendingForcedMove = s.pendingForcedMove := rfl

theorem frame_handleEarthConversion (s : GameState) (h : Nat) :
    (∀ p, ((handleEarthConversion s h).players p).hexId = (s.players p).hexId) ∧
    (handleEarthConversion s h).pendingForcedMove = s.pendingForcedMove := by
  unfold handleEarthConversion
  split
  · dsimp only
    split
    · constructor
      · intro p
        rw [players_addToken, (frame_takeFromSupply _ .earth .forest).1 p,
          (frame_destroyToken s h .lake).1 p]
      · rw [pf_addToken, (frame_takeFromSupply _ .earth .forest).2,
          (frame_destroyToken s h .lake).2]
    · exact frame_destroyToken s h .lake
  · exact ⟨fun _ => rfl, rfl⟩

theorem frame_handleWaterConversion (s : GameState) (h : Nat) :
    (∀ p, ((handleWaterConversion s h).players p).hexId = (s.players p).hexId) ∧
    (handleWaterConversion s h).pendingForcedMove = s.pendingForcedMove := by
  unfold handleWaterConversion
  split
  · dsimp only
    split
    · split
      · constructor
        · intro p
          rw [players_addToken, (frame_takeFromSupply _ .water .fog).1 p,
            players_addToken, (frame_takeFromSupply _ .water .lake).1 p,
            (frame_destroyToken s h .fire).1 p]
        · rw [pf_addToken, (frame_takeFromSupply _ .water .fog).2,
            pf_addToken, (frame_takeFromSupply _ .water .lake).2,
            (frame_destroyToken s h .fire).2]
      · constructor
        · intro p
          rw [players_addToken, (frame_takeFromSupply _ .water .lake).1 p,
            (frame_destroyToken s h .fire).1 p]
        · rw [pf_addToken, (frame_takeFromSupply _ .water .lake).2,
            (frame_destroyToken s h .fire).2]
    · exact frame_destroyToken s h .fire
  · exact ⟨fun _ => rfl, rfl⟩

theorem frame_handleFireConversion (s : GameState) (h : Nat) :
    (∀ p, ((handleFireConversion s h).players p).hexId = (s.players p).hexId) ∧
    (handleFireConversion s h).pendingForcedMove = s.pendingForcedMove := by
  unfold handleFireConversion
  split
  · dsimp only
    split
    · constructor
      · intro p
        rw [players_addToken, (frame_takeFromSupply _ .fire .fire).1 p,
          (frame_destroyToken s h .forest).1 p]
      · rw [pf_addToken, (frame_takeFromSupply _ .fire .fire).2,
          (frame_destroyToken s h .forest).2]
    · exact frame_destroyToken s h .forest
  · exact ⟨fun _ => rfl, rfl⟩

/-! Per-operation preservation of the invariant bundle. -/

theorem invS_take_add (s : GameState) (q : ElementalType) (tok : TokenType) (h : Nat)
    (hh : h ∈ allHexIds) (hok : s.takeOk q tok = true) (hI : InvS s) :
    InvS ((s.takeFromSupply q tok).addToken h tok) := by
  obtain ⟨hc, hpos, hpf⟩ := hI
  refine ⟨conserved_take_add s q tok h hh hok hc, ?_, ?_⟩
  · intro p
    rw [players_addToken, (frame_takeFromSupply s q tok).1 p]
    exact hpos p
  · intro fm hfm
    rw [pf_addToken, (frame_takeFromSupply s q tok).2] at hfm
    exact hpf fm hfm

theorem invS_setElementalOnHex (s : GameState) (t : Nat) (e : ElementalType)
    (ht : t ∈ allHexIds) (hI : InvS s) : InvS (s.setElementalOnHex t e) := by
  obtain ⟨hc, hpos, hpf⟩ := hI
  refine ⟨conserved_setElementalOnHex s t e hc, ?_, ?_⟩
  · intro p
    rw [players_setElementalOnHex]
    split
    · exact ht
    · exact hpos p
  · intro fm hfm
    rw [pf_setElementalOnHex] at hfm
    exact hpf fm hfm

theorem invS_addLog (s : GameState) (m : String) (hI : InvS s) : InvS (s.addLog m) := by
  obtain ⟨hc, hpos, hpf⟩ := hI
  exact ⟨conserved_addLog s m hc, hpos, hpf⟩

/-- Convert-then-move for earth (uproot, the move halves of raise-mountain
and landslide, and the forced move). -/
theorem invS_earthConvMove (s : GameState) (t : Nat) (ht : t ∈ allHexIds) (hI : InvS s) :
    InvS ((handleEarthConversion s t).setElementalOnHex t .earth) := by
  obtain ⟨hc, hpos, hpf⟩ := hI
  refine invS_setElementalOnHex _ t .earth ht ⟨conserved_handleEarthConversion s t ht hc, ?_, ?_⟩
  · intro p
    rw [(frame_handleEarthConversion s t).1 p]
    exact hpos p
  · intro fm hfm
    rw [(frame_handleEarthConversion s t).2] at hfm
    exact hpf fm hfm

theorem invS_waterConvMove (s : GameState) (t : Nat) (ht : t ∈ allHexIds) (hI : InvS s) :
    InvS ((handleWaterConversion s t).setElementalOnHex t .water) := by
  obtain ⟨hc, hpos, hpf⟩ := hI
  refine invS_setElementalOnHex _ t .water ht ⟨conserved_handleWaterConversion s t ht hc, ?_, ?_⟩
  · intro p
    rw [(frame_handleWaterConversion s t).1 p]
    exact hpos p
  · intro fm hfm
    rw [(frame_handleWaterConversion s t).2] at hfm
    exact hpf fm hfm

theorem invS_fireConvMove (s : GameState) (t : Nat) (ht : t ∈ allHexIds) (hI : InvS s) :
    InvS ((handleFireConversion s t).setElementalOnHex t .fire) := by
  obtain ⟨hc, hpos, hpf⟩ := hI
  refine invS_setElementalOnHex _ t .fire ht ⟨conserved_handleFireConversion s t ht hc, ?_, ?_⟩
  · intro p
    rw [(frame_handleFireConversion s t).1 p]
    exact hpos p
  · intro fm hfm
    rw [(frame_handleFireConversion s t).2] at hfm
    exact hpf fm hfm

theorem invS_handleFireOnEarth (s : GameState) (hI : InvS s) :
    InvS (handleFireOnEarth s) := by
  obtain ⟨hc, hpos, hpf⟩ := hI
  refine ⟨conserved_handleFireOnEarth s hc, ?_, ?_⟩ <;>
    unfold handleFireOnEarth <;> dsimp only <;> split
  · exact hpos
  · exact hpos
  · intro fm hfm
    rw [pf_addLog] at hfm
    exact hpf fm hfm
  · intro fm hfm
    rcases Option.some.inj hfm.symm with rfl
    intro x hx
    exact getNeighbors_subset _ x (List.mem_filter.mp hx).1

theorem invS_executeUproot (s : GameState) (t : Nat) (ht : t ∈ getUprootTargets s)
    (hI : InvS s) : InvS (executeUproot s t) :=
  invS_earthConvMove s t (uprootTargets_all ht) hI

theorem invS_raiseMountainMoveStep (s : GameState) (m : Nat)
    (hm : m = (s.players .earth).hexId ∨ m ∈ allHexIds) (hI : InvS s) :
    InvS (raiseMountainMoveStep s m) := by
  unfold raiseMountainMoveStep
  split
  · rename_i hne
    rcases hm with hm | hm
    · exact absurd hm hne
    · exact invS_earthConvMove s m hm hI
  · exact hI

theorem invS_executeRaiseMountain (s : GameState) (m p : Nat)
    (hm : m = (s.players .earth).hexId ∨ m ∈ allHexIds)
    (hp : p ∈ getRaiseMountainPlaceTargets (raiseMountainMoveStep s m))
    (hI : InvS s) : InvS (executeRaiseMountain s m p) := by
  have h1 := invS_raiseMountainMoveStep s m hm hI
  have hpall : p ∈ allHexIds := by
    unfold getRaiseMountainPlaceTargets at hp
    split at hp <;> exact mem_filter_allHexIds hp
  unfold executeRaiseMountain
  dsimp only
  split
  · exact h1
  · split
    · rename_i hok
      exact invS_take_add _ .earth .mountain p hpall hok h1
    · exact h1

theorem invS_chainDestroyMountain (s : GameState) (d : Nat) (hd : d ∈ allHexIds)
    (hI : InvS s) : InvS (chainDestroyMountain s d) := by
  obtain ⟨hc, hpos, hpf⟩ := hI
  obtain ⟨g1, g2, g3⟩ := chainLoop_invariants 1000 s [d] []
    (fun x hx => by rw [List.mem_singleton.mp hx]; exact hd) hc
  refine ⟨g1, ?_, ?_⟩
  · intro p
    unfold chainDestroyMountain
    rw [g2 p]
    exact hpos p
  · intro fm hfm
    unfold chainDestroyMountain at hfm
    rw [g3] at hfm
    exact hpf fm hfm

theorem invS_executeLandslide (s : GameState) (m : Nat) (d : Option Nat)
    (hm : m = (s.players .earth).hexId ∨ m ∈ allHexIds)
    (hd : ∀ x, d = some x → x ∈ getLandslideDestroyTargets (landslideMoveStep s m))
    (hI : InvS s) : InvS (executeLandslide s m d) := by
  have h1 : InvS (landslideMoveStep s m) := by
    unfold landslideMoveStep
    split
    · rename_i hne
      rcases hm with hm | hm
      · exact absurd hm hne
      · exact invS_earthConvMove s m hm hI
    · exact hI
  unfold executeLandslide
  match d with
  | none => exact h1
  | some x =>
      exact invS_chainDestroyMountain _ x (mem_filter_allHexIds (hd x rfl)) h1

theorem invS_executeSprout (s : GameState) (t : Nat) (ht : t ∈ getSproutTargets s)
    (hI : InvS s) : InvS (executeSprout s t) := by
  obtain ⟨hc, hpos, hpf⟩ := hI
  have htall : t ∈ allHexIds := mem_filter_allHexIds ht
  have h1 : InvS (s.destroyToken t .lake) := by
    refine ⟨conserved_destroyToken s t .lake htall hc, ?_, ?_⟩
    · intro p
      rw [(frame_destroyToken s t .lake).1 p]
      exact hpos p
    · intro fm hfm
      rw [(frame_destroyToken s t .lake).2] at hfm
      exact hpf fm hfm
  unfold executeSprout
  dsimp only
  split
  · rename_i hok
    exact invS_take_add _ .earth .forest t htall hok h1
  · exact h1

theorem invS_executeMosey (s : GameState) (t : Nat) (ht : t ∈ getMoseyTargets s)
    (hI : InvS s) : InvS (executeMosey s t) := by
  unfold executeMosey
  split
  · exact hI
  · rename_i hne
    rcases moseyTargets_own_or_all ht with h | h
    · exact absurd h hne
    · exact invS_waterConvMove s t h hI

theorem invS_conjureOne (s : GameState) (h : Nat) (hh : h ∈ allHexIds) (hI : InvS s) :
    InvS (conjureOne s h) := by
  unfold conjureOne
  split
  · rename_i hok
    have h1 := invS_take_add s .water .lake h hh hok hI
    dsimp only
    split
    · rename_i hfog
      have hfog' : (((s.takeFromSupply .water .lake).addToken h .lake).takeOk .water .fog)
          = true := by
        have := (Bool.and_eq_true _ _).mp hfog
        unfold GameState.takeOk
        simpa using this.2
      exact invS_take_add _ .water .fog h hh hfog' h1
    · exact h1
  · exact hI

theorem invS_executeSurf (s : GameState) (t : Nat) (ht : t ∈ getSurfTargets s)
    (hI : InvS s) : InvS (executeSurf s t) :=
  invS_setElementalOnHex s t .water (surfTargets_all ht) hI

theorem invS_executeRematerialize (s : GameState) (t : Nat)
    (ht : t ∈ getRematerializeTargets s) (hI : InvS s) :
    InvS (executeRematerialize s t) := by
  obtain ⟨hc, hpos, hpf⟩ := hI
  obtain ⟨htall, hfog⟩ := rematTargets_all_and_fog ht
  have h1 : InvS ((s.removeToken t .fog).addToken ((s.players .water).hexId) .fog) := by
    refine ⟨conserved_remove_add s t _ .fog htall (hpos .water) hfog hc, ?_, ?_⟩
    · intro p
      rw [players_addToken, players_removeToken]
      exact hpos p
    · intro fm hfm
      rw [pf_addToken] at hfm
      exact hpf fm hfm
  exact invS_setElementalOnHex _ t .water htall h1

theorem invS_executeSmokeDash (s : GameState) (t : Nat) (ht : t ∈ getSmokeDashTargets s)
    (hI : InvS s) : InvS (executeSmokeDash s t) :=
  invS_fireConvMove s t (smokeDashTargets_all ht) hI

theorem invS_executeFlameDashMove (s : GameState) (t : Nat) (b : Bool)
    (ht : t ∈ allHexIds) (hI : InvS s) : InvS (executeFlameDashMove s t b) := by
  have h1 := invS_fireConvMove s t ht hI
  unfold executeFlameDashMove
  dsimp only
  split
  · split
    · rename_i hok
      exact invS_take_add _ .fire .fire t ht hok h1
    · exact h1
  · exact h1

theorem invS_executeFlameDash (s : GameState) (t : Nat) (ht : t ∈ getFlameDashTargets s)
    (hI : InvS s) : InvS (executeFlameDash s t) :=
  invS_executeFlameDashMove s t true (flameDashTargets_all ht) hI

/-- The earth-hit scan of firestorm preserves the bundle and moves nobody. -/
theorem invS_firestormEarthCheck_fold :
    ∀ (l : List Nat) (s : GameState), InvS s →
      InvS (l.foldl firestormEarthCheck s) ∧
      (∀ p, ((l.foldl firestormEarthCheck s).players p).hexId = (s.players p).hexId)
  | [], s, hI => ⟨hI, fun _ => rfl⟩
  | hex :: rest, s, hI => by
      have hstep : InvS (firestormEarthCheck s hex) ∧
          (∀ p, ((firestormEarthCheck s hex).players p).hexId = (s.players p).hexId) := by
        unfold firestormEarthCheck
        split
        · refine ⟨invS_handleFireOnEarth s hI, ?_⟩
          intro p
          unfold handleFireOnEarth
          dsimp only
          split <;> rfl
        · exact ⟨hI, fun _ => rfl⟩
      obtain ⟨g1, g2⟩ := invS_firestormEarthCheck_fold rest _ hstep.1
      exact ⟨g1, fun p => (g2 p).trans (hstep.2 p)⟩

theorem invS_executeFirestorm (s : GameState) (ts : List Nat)
    (hlast : ∀ mt, ts.getLast? = some mt →
      mt = (s.players .fire).hexId ∨ mt ∈ allHexIds)
    (hI : InvS s) : InvS (executeFirestorm s ts) := by
  obtain ⟨h1, h2⟩ := invS_firestormEarthCheck_fold ts.dropLast s hI
  unfold executeFirestorm
  dsimp only
  rcases hgl : ts.getLast? with _ | mt <;> dsimp only
  · exact h1
  · split
    · rename_i hne
      rcases hlast mt hgl with hmt | hmt
      · exact absurd (hmt.trans (h2 .fire).symm) hne
      · exact invS_fireConvMove _ mt hmt h1
    · exact h1

theorem invS_placeFirestormToken (s : GameState) (h : Nat) (hh : h ∈ allHexIds)
    (hI : InvS s) : InvS (placeFirestormToken s h) := by
  obtain ⟨hc, hpos, hpf⟩ := hI
  have hId : InvS s := ⟨hc, hpos, hpf⟩
  have hd : InvS (s.destroyToken h .forest) := by
    refine ⟨conserved_destroyToken s h .forest hh hc, ?_, ?_⟩
    · intro p
      rw [(frame_destroyToken s h .forest).1 p]
      exact hpos p
    · intro fm hfm
      rw [(frame_destroyToken s h .forest).2] at hfm
      exact hpf fm hfm
  unfold placeFirestormToken
  dsimp only
  by_cases hf : s.hasToken h .forest = true
  · rw [if_pos hf]
    split
    · rename_i hok
      exact invS_take_add _ .fire .fire h hh hok hd
    · exact hd
  · rw [if_neg hf]
    split
    · rename_i hok
      exact invS_take_add _ .fire .fire h hh hok hId
    · exact hId

theorem invS_firewallPlace_fold :
    ∀ (l : List Nat) (s : GameState), (∀ x ∈ l, x ∈ allHexIds) → InvS s →
      InvS (l.foldl firewallPlaceStep s)
  | [], _, _, hI => hI
  | hex :: rest, s, hl, hI => by
      have hstep : InvS (firewallPlaceStep s hex) := by
        unfold firewallPlaceStep
        split
        · rename_i hok
          exact invS_take_add s .fire .fire hex (hl hex (List.mem_cons_self hex rest)) hok hI
        · exact hI
      exact invS_firewallPlace_fold rest _
        (fun x hx => hl x (List.mem_cons_of_mem hex hx)) hstep

theorem invS_executeFirewall (s : GameState) (t : Nat) (hI : InvS s) :
    InvS (executeFirewall s t) :=
  invS_firewallPlace_fold (getFirewallPreview s t) s
    (fun x hx => firewallPreview_all hx) hI

theorem invS_executeForcedMove (s : GameState) (t : Nat) (fm : ForcedMove)
    (hfm : s.pendingForcedMove = some fm) (ht : t ∈ fm.validTargets) (hI : InvS s) :
    InvS (executeForcedMove s t) := by
  have htall : t ∈ allHexIds := hI.2.2 fm hfm t ht
  have h1 := invS_addLog ((handleEarthConversion s t).setElementalOnHex t .earth)
    ("Earth forced to move to hex " ++ toString t ++ ".")
    (invS_earthConvMove s t htall hI)
  obtain ⟨hc, hpos, hpf⟩ := h1
  unfold executeForcedMove
  exact ⟨fun tk => hc tk, fun p => hpos p, fun fm2 hfm2 => by cases hfm2⟩

theorem invS_moveFog (s : GameState) (a b : Nat) (ha : a ∈ getFogTokenHexes s)
    (hb : b = a ∨ b ∈ allHexIds) (hI : InvS s) : InvS (moveFog s a b) := by
  obtain ⟨hc, hpos, hpf⟩ := hI
  unfold moveFog
  split
  · exact ⟨hc, hpos, hpf⟩
  · rename_i hne
    obtain ⟨haall, hfog⟩ := fogTokenHexes_all_and_fog ha
    have hball : b ∈ allHexIds := by
      rcases hb with rfl | hb
      · exact absurd rfl hne
      · exact hb
    refine invS_addLog _ _ ⟨conserved_remove_add s a b .fog haall hball hfog hc, ?_, ?_⟩
    · intro p
      rw [players_addToken, players_removeToken]
      exact hpos p
    · intro fm hfm
      rw [pf_addToken] at hfm
      exact hpf fm hfm

theorem frame_destroyAllAt (h : Nat) :
    ∀ (toks : List TokenType) (s : GameState),
      (∀ p, ((destroyAllAt s h toks).players p).hexId = (s.players p).hexId) ∧
      (destroyAllAt s h toks).pendingForcedMove = s.pendingForcedMove
  | [], _ => ⟨fun _ => rfl, rfl⟩
  | tok :: rest, s => by
      obtain ⟨g1, g2⟩ := frame_destroyAllAt h rest (s.destroyToken h tok)
      exact ⟨fun p => (g1 p).trans ((frame_destroyToken s h tok).1 p),
        g2.trans (frame_destroyToken s h tok).2⟩

theorem invS_executeEarthSOT (s : GameState) (t : Nat) (ht : t ∈ allHexIds)
    (hI : InvS s) : InvS (executeEarthSOT s t) := by
  obtain ⟨hc, hpos, hpf⟩ := hI
  have h1 := conserved_destroyAllAt t ht (s.getHex t).tokens s hc
  refine invS_addLog _ _ ⟨conserved_setStoneMinion _ t h1, ?_, ?_⟩
  · intro p
    rw [players_setStoneMinion, (frame_destroyAllAt t (s.getHex t).tokens s).1 p]
    exact hpos p
  · intro fm hfm
    have : (destroyAllAt s t (s.getHex t).tokens).pendingForcedMove = s.pendingForcedMove :=
      (frame_destroyAllAt t (s.getHex t).tokens s).2
    rw [show ((destroyAllAt s t (s.getHex t).tokens).setStoneMinion t).pendingForcedMove
      = (destroyAllAt s t (s.getHex t).tokens).pendingForcedMove from rfl, this] at hfm
    exact hpf fm hfm

theorem invS_executeWaterSOT (s : GameState) (t : Nat) (ht : t ∈ allHexIds)
    (hI : InvS s) : InvS (executeWaterSOT s t) := by
  have h1 := invS_waterConvMove s t ht hI
  obtain ⟨hc, hpos, hpf⟩ := h1
  unfold executeWaterSOT
  dsimp only
  refine invS_addLog _ _ ?_
  split
  · exact ⟨fun tk => hc tk, fun p => hpos p, fun fm hfm => hpf fm hfm⟩
  · exact ⟨hc, hpos, hpf⟩

theorem invS_executeFireSOT (s : GameState) (t : Nat) (ht : t ∈ allHexIds)
    (hI : InvS s) : InvS (executeFireSOT s t) := by
  unfold executeFireSOT
  split
  · exact hI
  · rename_i hok
    have hok' : s.takeOk .fire .fire = true := by
      rcases hb : s.takeOk .fire .fire with _ | _
      · rw [hb] at hok
        simp at hok
      · rfl
    have h1 := invS_take_add s .fire .fire t ht hok' hI
    refine invS_addLog _ _ ?_
    dsimp only
    split
    · exact invS_handleFireOnEarth _ h1
    · exact h1

set_option maxHeartbeats 800000 in
theorem invS_executeSOT (winCheck : GameState → Option ElementalType) (s : GameState)
    (t : Nat) (ht : t ∈ getSOTValidTargets s) (hI : InvS s) :
    InvS (executeSOT winCheck s t) := by
  have htall : t ∈ allHexIds := sotTargets_own_or_all hI.2.1 ht
  have h1 : InvS (match s.currentPlayer with
      | .earth => executeEarthSOT s t
      | .water => executeWaterSOT s t
      | .fire => executeFireSOT s t) := by
    cases s.currentPlayer
    · exact invS_executeEarthSOT s t htall hI
    · exact invS_executeWaterSOT s t htall hI
    · exact invS_executeFireSOT s t htall hI
  obtain ⟨hc, hpos, hpf⟩ := h1
  unfold executeSOT
  dsimp only
  split
  · exact ⟨fun tk => hc tk, fun p => hpos p, fun fm hfm => hpf fm hfm⟩
  · exact ⟨fun tk => hc tk, fun p => hpos p, fun fm hfm => hpf fm hfm⟩

theorem invS_advanceTurn (s : GameState) (hI : InvS s) : InvS s.advanceTurn := by
  obtain ⟨hc, hpos, hpf⟩ := hI
  exact ⟨fun tk => hc tk, fun p => hpos p, fun fm hfm => hpf fm hfm⟩

theorem invS_executeSpecialAbility (stream : Nat → Nat) (s : GameState) (hI : InvS s) :
    InvS (executeSpecialAbility stream s) := by
  obtain ⟨hc, hpos, hpf⟩ := hI
  exact ⟨fun tk => hc tk, fun p => hpos p, fun fm hfm => hpf fm hfm⟩

/-- Targets drawn from the legal-target set of the invoked action, each
sub-step's set recomputed on the state left by the previous sub-step (the
way the interactive driver issues them). -/
def actionLegal (s : GameState) : ActionId → List Nat → Prop
  | .uproot, [t] => t ∈ getUprootTargets s
  | .raiseMountain, [m, p] =>
      m ∈ getRaiseMountainMoveTargets s ∧
      p ∈ getRaiseMountainPlaceTargets (raiseMountainMoveStep s m)
  | .landslide, [m] => m ∈ getLandslideMoveTargets s
  | .landslide, [m, d] =>
      m ∈ getLandslideMoveTargets s ∧
      d ∈ getLandslideDestroyTargets (landslideMoveStep s m)
  | .sprout, [t] => t ∈ getSproutTargets s
  | .mosey, [t] => t ∈ getMoseyTargets s
  | .conjure, [] => True
  | .conjure, [t1] => t1 ∈ getConjureTargets s
  | .conjure, [t1, t2] =>
      t1 ∈ getConjureTargets s ∧ t2 ∈ getConjureTargets (conjureOne s t1)
  | .surf, [t] => t ∈ getSurfTargets s
  | .rematerialize, [t] => t ∈ getRematerializeTargets s
  | .smokeDash, [t] => t ∈ getSmokeDashTargets s
  | .flameDash, [t] => t ∈ getFlameDashTargets s
  | .firestorm, ts => ∀ mt, ts.getLast? = some mt → mt ∈ getFirestormMoveTargets s
  | .firewall, [t] => t ∈ getFirewallDirectionHexes s
  | .special, _ => True
  | _, _ => False

/-- One engine operation, invoked with targets drawn from its corresponding
legal-target set: a start-of-turn ability, a main action, a forced-move
resolution, a live firestorm token placement, a fog follow-move (whose
legal targets are those returned by `getFogMoveTargets`), a special-ability
card use, and the turn advance. -/
inductive Step (winCheck : GameState → Option ElementalType) :
    GameState → GameState → Prop where
  | sot : ∀ s t, t ∈ getSOTValidTargets s →
      Step winCheck s (executeSOT winCheck s t)
  | action : ∀ s a ts s', actionLegal s a ts → executeAction a ts s = some s' →
      Step winCheck s s'
  | forced : ∀ s t fm, s.pendingForcedMove = some fm → t ∈ fm.validTargets →
      Step winCheck s (executeForcedMove s t)
  | stormPlace : ∀ s h, h ∈ getFirestormPlacementTargets s →
      Step winCheck s (placeFirestormToken s h)
  | fogStep : ∀ s a b r, a ∈ getFogTokenHexes s → b ∈ getFogMoveTargets s a r →
      Step winCheck s (moveFog s a b)
  | card : ∀ s stream, Step winCheck s (executeSpecialAbility stream s)
  | turn : ∀ s, Step winCheck s s.advanceTurn

/-- States reachable from `s0` by any sequence of engine operations with
legal targets. -/
def ReachableEngine (winCheck : GameState → Option ElementalType)
    (s0 s : GameState) : Prop :=
  Relation.ReflTransGen (Step winCheck) s0 s

theorem invS_executeAction (s s' : GameState) (a : ActionId) (ts : List Nat)
    (ha : actionLegal s a ts) (he : executeAction a ts s = some s') (hI : InvS s) :
    InvS s' := by
  cases a with
  | uproot =>
      rcases ts with _ | ⟨t, _ | ⟨t2, rest⟩⟩
      · exact False.elim ha
      · cases Option.some.inj he
        exact invS_executeUproot s t ha hI
      · exact False.elim ha
  | raiseMountain =>
      rcases ts with _ | ⟨m, _ | ⟨p, _ | ⟨x, rest⟩⟩⟩
      · exact False.elim ha
      · exact False.elim ha
      · cases Option.some.inj he
        exact invS_executeRaiseMountain s m p (raiseMoveTargets_own_or_all ha.1) ha.2 hI
      · exact False.elim ha
  | landslide =>
      rcases ts with _ | ⟨m, _ | ⟨d, _ | ⟨x, rest⟩⟩⟩
      · exact False.elim ha
      · cases Option.some.inj he
        exact invS_executeLandslide s m none (landslideMoveTargets_own_or_all ha)
          (fun x hx => by cases hx) hI
      · cases Option.some.inj he
        exact invS_executeLandslide s m (some d) (landslideMoveTargets_own_or_all ha.1)
          (fun x hx => by cases Option.some.inj hx; exact ha.2) hI
      · exact False.elim ha
  | sprout =>
      rcases ts with _ | ⟨t, _ | ⟨t2, rest⟩⟩
      · exact False.elim ha
      · cases Option.some.inj he
        exact invS_executeSprout s t ha hI
      · exact False.elim ha
  | mosey =>
      rcases ts with _ | ⟨t, _ | ⟨t2, rest⟩⟩
      · exact False.elim ha
      · cases Option.some.inj he
        exact invS_executeMosey s t ha hI
      · exact False.elim ha
  | conjure =>
      rcases ts with _ | ⟨t1, _ | ⟨t2, _ | ⟨x, rest⟩⟩⟩
      · cases Option.some.inj he
        exact hI
      · cases Option.some.inj he
        exact invS_conjureOne s t1 (conjureTargets_all ha) hI
      · cases Option.some.inj he
        exact invS_conjureOne _ t2 (conjureTargets_all ha.2)
          (invS_conjureOne s t1 (conjureTargets_all ha.1) hI)
      · exact False.elim ha
  | surf =>
      rcases ts with _ | ⟨t, _ | ⟨t2, rest⟩⟩
      · exact False.elim ha
      · cases Option.some.inj he
        exact invS_executeSurf s t ha hI
      · exact False.elim ha
  | rematerialize =>
      rcases ts with _ | ⟨t, _ | ⟨t2, rest⟩⟩
      · exact False.elim ha
      · cases Option.some.inj he
        exact invS_executeRematerialize s t ha hI
      · exact False.elim ha
  | smokeDash =>
      rcases ts with _ | ⟨t, _ | ⟨t2, rest⟩⟩
      · exact False.elim ha
      · cases Option.some.inj he
        exact invS_executeSmokeDash s t ha hI
      · exact False.elim ha
  | flameDash =>
      rcases ts with _ | ⟨t, _ | ⟨t2, rest⟩⟩
      · exact False.elim ha
      · cases Option.some.inj he
        exact invS_executeFlameDash s t ha hI
      · exact False.elim ha
  | firestorm =>
      rcases ts with _ | ⟨t, rest⟩
      · cases Option.some.inj he
        exact invS_executeFirestorm s []
          (fun mt hmt => firestormMoveTargets_own_or_all (ha mt hmt)) hI
      · cases Option.some.inj he
        exact invS_executeFirestorm s (t :: rest)
          (fun mt hmt => firestormMoveTargets_own_or_all (ha mt hmt)) hI
  | firewall =>
      rcases ts with _ | ⟨t, _ | ⟨t2, rest⟩⟩
      · exact False.elim ha
      · cases Option.some.inj he
        exact invS_executeFirewall s t hI
      · exact False.elim ha
  | special =>
      rcases ts with _ | ⟨t, rest⟩
      · cases Option.some.inj he
        exact hI
      · cases Option.some.inj he
        exact hI

theorem invS_step (winCheck : GameState → Option ElementalType) (s s' : GameState)
    (hstep : Step winCheck s s') (hI : InvS s) : InvS s' := by
  cases hstep with
  | sot t ht => exact invS_executeSOT winCheck s t ht hI
  | action a ts s2 ha he => exact invS_executeAction s _ a ts ha he hI
  | forced t fm hfm ht => exact invS_executeForcedMove s t fm hfm ht hI
  | stormPlace h hh =>
      exact invS_placeFirestormToken s h (firestormPlacementTargets_all hh) hI
  | fogStep a b r hfrom hto =>
      exact invS_moveFog s a b hfrom (getFogMoveTargets_subset s a r b hto) hI
  | card stream => exact invS_executeSpecialAbility stream s hI
  | turn => exact invS_advanceTurn s hI

theorem invS_reachable (winCheck : GameState → Option ElementalType)
    (s0 s : GameState) (hreach : ReachableEngine winCheck s0 s) (hI : InvS s0) :
    InvS s := by
  induction hreach with
  | refl => exact hI
  | tail _ hstep ih => exact invS_step winCheck _ _ hstep ih

theorem conserved_initial_zero : conserved (initialGameState fun _ => 0) := by decide

theorem invS_initial (stream : Nat → Nat) : InvS (initialGameState stream) := by
  refine ⟨fun t => conserved_initial_zero t, fun p => ?_, fun fm hfm => ?_⟩
  · cases p
    · exact (by decide :
        ((initialGameState fun _ => 0).players .earth).hexId ∈ allHexIds)
    · exact (by decide :
        ((initialGameState fun _ => 0).players .water).hexId ∈ allHexIds)
    · exact (by decide :
        ((initialGameState fun _ => 0).players .fire).hexId ∈ allHexIds)
  · have h : (initialGameState stream).pendingForcedMove = none := rfl
    rw [h] at hfm
    cases hfm

/-- Claim C2: token conservation — in the initial scenario, and after every
sequence of engine operations (`executeSOT`, `executeAction`,
`executeForcedMove`, `placeFirestormToken`, `moveFog`, plus the
special-ability card use and the turn advance) invoked with targets drawn
from their legal-target sets, the sum of the players' supplies of each
token type plus `countTokensOnBoard` of that type equals its fixed total:
mountain 4, forest 3, fire 12, lake 5, fog 2 (`tokenTotal`). The win
checker (not among the sources) is abstracted as the pure function
`winCheck`, and `stream` feeds the deck shuffles. -/
theorem token_conservation (winCheck : GameState → Option ElementalType)
    (stream : Nat → Nat) (s : GameState)
    (hreach : ReachableEngine winCheck (initialGameState stream) s) :
    ∀ t, s.supplySum t + s.countTokensOnBoard t = tokenTotal t :=
  (invS_reachable winCheck _ s hreach (invS_initial stream)).1

/-- Witness for C2 at the initial scenario itself. -/
theorem token_conservation_witness :
    (initialGameState (fun _ => 0)).supplySum .mountain
        + (initialGameState (fun _ => 0)).countTokensOnBoard .mountain = 4 ∧
    (initialGameState (fun _ => 0)).supplySum .fog
        + (initialGameState (fun _ => 0)).countTokensOnBoard .fog = 2 :=
  ⟨token_conservation (fun _ => none) (fun _ => 0) _ Relation.ReflTransGen.refl .mountain,
   token_conservation (fun _ => none) (fun _ => 0) _ Relation.ReflTransGen.refl .fog⟩

/-- A legal three-step trace from the initial scenario that stacks both fog
tokens on hex 10: conjure onto hexes 8 and 15, conjure onto hexes 14 and 10
(the second placement empties the lake supply, auto-placing the last fog on
hex 10 as well), then the starting fog on hex 9 follow-moves to hex 10 —
`getFogMoveTargets` applies no occupancy filter, so an already-fogged cell
is a legal destination. -/
def fogStackState : GameState :=
  moveFog (executeConjure (executeConjure (initialGameState fun _ => 0) [8, 15]) [14, 10]) 9 10

/-- Claim C7 counterexample: a state reachable from the initial scenario by
engine operations with targets drawn from their legal-target sets (two
conjures and one fog follow-move through `getFogMoveTargets`) in which a
single cell holds two fog tokens, contradicting the fog-stacking invariant
as stated. -/
theorem fog_stacking_counterexample :
    ReachableEngine (fun _ => none) (initialGameState fun _ => 0) fogStackState ∧
      (fogStackState.board 10).tokens.count .fog = 2 := by
  constructor
  · have e1 : Step (fun _ => none) (initialGameState fun _ => 0)
        (executeConjure (initialGameState fun _ => 0) [8, 15]) :=
      Step.action _ .conjure [8, 15] _ ⟨by decide, by decide⟩ rfl
    have e2 : Step (fun _ => none)
        (executeConjure (initialGameState fun _ => 0) [8, 15])
        (executeConjure (executeConjure (initialGameState fun _ => 0) [8, 15]) [14, 10]) :=
      Step.action _ .conjure [14, 10] _ ⟨by decide, by decide⟩ rfl
    have e3 : Step (fun _ => none)
        (executeConjure (executeConjure (initialGameState fun _ => 0) [8, 15]) [14, 10])
        fogStackState :=
      Step.fogStep _ 9 10 1 (by decide) (by decide)
    exact Relation.ReflTransGen.tail
      (Relation.ReflTransGen.tail (Relation.ReflTransGen.single e1) e2) e3
  · decide

theorem count_le_countTokensOnBoard (s : GameState) (h : Nat) (hh : h ∈ allHexIds)
    (t : TokenType) : (s.board h).tokens.count t ≤ s.countTokensOnBoard t :=
  List.single_le_sum (fun x _ => Nat.zero_le x) _ (List.mem_map.mpr ⟨h, hh, rfl⟩)

/-- Claim C7 (amended): the engine enforces no per-cell stacking rule for
fog — both fog tokens can legally end on one cell — and the only per-cell
bound it does maintain is the conservation one: in every state reachable
from the initial scenario by engine operations with legal targets, each
board cell holds at most `tokenTotal t` tokens of each type `t`, in
particular at most 2 fog tokens. -/
theorem fog_cell_bound (winCheck : GameState → Option ElementalType)
    (stream : Nat → Nat) (s : GameState)
    (hreach : ReachableEngine winCheck (initialGameState stream) s)
    (h : Nat) (hh : h ∈ allHexIds) (t : TokenType) :
    (s.board h).tokens.count t ≤ tokenTotal t := by
  have hc := (invS_reachable winCheck _ s hreach (invS_initial stream)).1 t
  have hb := count_le_countTokensOnBoard s h hh t
  omega

/-- Witness for the amended C7 bound at the initial scenario, hex 9, fog. -/
theorem fog_cell_bound_witness :
    ((initialGameState fun _ => 0).board 9).tokens.count .fog ≤ 2 :=
  fog_cell_bound (fun _ => none) (fun _ => 0) _ Relation.ReflTransGen.refl 9 (by decide) .fog

/-! ## Chain destruction (C4) -/

/-- Per-hex token count. -/
def countAt (s : GameState) (h : Nat) (t : TokenType) : Nat :=
  (s.board h).tokens.count t

/-- The mountain-adjacency connected component of the chosen hex in the
pre-call state: mountains reachable through chains of adjacent mountain
hexes. -/
inductive MReach (s0 : GameState) (h0 : Nat) : Nat → Prop where
  | base : MReach s0 h0 h0
  | step {m n : Nat} : MReach s0 h0 m → s0.hasToken m .mountain = true →
      n ∈ getNeighbors m → s0.hasToken n .mountain = true → MReach s0 h0 n

theorem MReach_mountain {s0 : GameState} {h0 x : Nat}
    (hm0 : s0.hasToken h0 .mountain = true) (h : MReach s0 h0 x) :
    s0.hasToken x .mountain = true := by
  induction h with
  | base => exact hm0
  | step _ _ _ hn _ => exact hn

theorem hasToken_iff_pos (s : GameState) (h : Nat) (t : TokenType) :
    s.hasToken h t = true ↔ 0 < countAt s h t := by
  unfold GameState.hasToken GameState.getHex countAt
  rw [List.count_pos_iff]
  simp

theorem countAt_destroyToken (s : GameState) (hx : Nat) (tok : TokenType)
    (h : Nat) (t : TokenType) :
    countAt (s.destroyToken hx tok) h t =
      if h = hx ∧ t = tok then countAt s h t - 1 else countAt s h t := by
  unfold GameState.destroyToken
  by_cases hht : s.hasToken hx tok = true
  · rw [if_pos hht]
    have hb : ((s.removeToken hx tok).returnTokenToSupply tok).board h
        = (s.removeToken hx tok).board h := rfl
    unfold countAt
    rw [hb]
    simp only [GameState.removeToken, board_setHex]
    by_cases hh : h = hx
    · subst hh
      rw [if_pos rfl]
      show ((s.board h).tokens.erase tok).count t = _
      by_cases ht : t = tok
      · subst ht
        rw [if_pos ⟨rfl, rfl⟩, List.count_erase_self]
      · rw [if_neg (fun hc => ht hc.2), List.count_erase_of_ne ht]
    · rw [if_neg hh, if_neg (fun hc => hh hc.1)]
  · rw [if_neg hht]
    by_cases hcond : h = hx ∧ t = tok
    · rw [if_pos hcond]
      obtain ⟨rfl, rfl⟩ := hcond
      have hnomem : t ∉ (s.board h).tokens := fun hmem => hht (by
        unfold GameState.hasToken GameState.getHex
        simpa using hmem)
      have hzero : countAt s h t = 0 := List.count_eq_zero.mpr hnomem
      rw [hzero]
    · rw [if_neg hcond]

theorem countAt_chainScanTok (n : Nat) (acc : GameState × List Nat) (tok : TokenType)
    (h : Nat) (t : TokenType) :
    countAt (chainScanTok n acc tok).1 h t =
      if tok ≠ .fog ∧ tok ≠ .mountain ∧ h = n ∧ t = tok
      then countAt acc.1 h t - 1 else countAt acc.1 h t := by
  unfold chainScanTok
  by_cases hf : tok = .fog
  · subst hf
    rw [if_pos rfl, if_neg (fun hc => hc.1 rfl)]
  · rw [if_neg hf]
    by_cases hm : tok = .mountain
    · subst hm
      rw [if_pos rfl, if_neg (fun hc => hc.2.1 rfl)]
    · rw [if_neg hm]
      show countAt (acc.1.destroyToken n tok) h t = _
      rw [countAt_destroyToken]
      by_cases hc : h = n ∧ t = tok
      · rw [if_pos hc, if_pos ⟨hf, hm, hc.1, hc.2⟩]
      · rw [if_neg hc, if_neg (fun hd => hc ⟨hd.2.2.1, hd.2.2.2⟩)]

theorem stack_chainScanTok (n : Nat) (acc : GameState × List Nat) (tok : TokenType) :
    (chainScanTok n acc tok).2 = if tok = .mountain then n :: acc.2 else acc.2 := by
  unfold chainScanTok
  by_cases hf : tok = .fog
  · subst hf
    rw [if_pos rfl, if_neg (by decide)]
  · rw [if_neg hf]
    by_cases hm : tok = .mountain
    · subst hm
      rw [if_pos rfl, if_pos rfl]
    · rw [if_neg hm, if_neg hm]

theorem chainScanTok_fold_counts (n : Nat) (c : List TokenType) :
    ∀ acc : GameState × List Nat, ∀ h t,
      countAt (c.foldl (chainScanTok n) acc).1 h t ≤ countAt acc.1 h t ∧
      ((t = .fog ∨ t = .mountain ∨ h ≠ n) →
        countAt (c.foldl (chainScanTok n) acc).1 h t = countAt acc.1 h t) := by
  induction c with
  | nil => exact fun acc h t => ⟨Nat.le_refl _, fun _ => rfl⟩
  | cons tok rest ih =>
      intro acc h t
      simp only [List.foldl_cons]
      have hstep := countAt_chainScanTok n acc tok h t
      obtain ⟨ih1, ih2⟩ := ih (chainScanTok n acc tok) h t
      constructor
      · refine ih1.trans ?_
        rw [hstep]
        split
        · omega
        · exact Nat.le_refl _
      · intro hcase
        rw [ih2 hcase, hstep]
        have hneg : ¬ (tok ≠ .fog ∧ tok ≠ .mountain ∧ h = n ∧ t = tok) := by
          rintro ⟨h1, h2, h3, h4⟩
          rcases hcase with hc | hc | hc
          · exact h1 (h4 ▸ hc)
          · exact h2 (h4 ▸ hc)
          · exact hc h3
        rw [if_neg hneg]

theorem chainScanTok_fold_stack (n : Nat) (c : List TokenType) :
    ∀ acc : GameState × List Nat,
      (∀ x ∈ acc.2, x ∈ (c.foldl (chainScanTok n) acc).2) ∧
      (∀ x ∈ (c.foldl (chainScanTok n) acc).2,
        x ∈ acc.2 ∨ (x = n ∧ TokenType.mountain ∈ c)) ∧
      ((c.foldl (chainScanTok n) acc).2.length ≤ acc.2.length + c.count .mountain) ∧
      (TokenType.mountain ∈ c → n ∈ (c.foldl (chainScanTok n) acc).2) := by
  induction c with
  | nil =>
      exact fun acc =>
        ⟨fun x hx => hx, fun x hx => .inl hx, Nat.le_refl _,
         fun hm => absurd hm (by simp)⟩
  | cons tok rest ih =>
      intro acc
      simp only [List.foldl_cons]
      obtain ⟨ihA, ihB, ihC, ihD⟩ := ih (chainScanTok n acc tok)
      have hst := stack_chainScanTok n acc tok
      by_cases hm : tok = .mountain
      · subst hm
        rw [if_pos rfl] at hst
        refine ⟨?_, ?_, ?_, ?_⟩
        · intro x hx
          exact ihA x (by rw [hst]; exact List.mem_cons_of_mem _ hx)
        · intro x hx
          rcases ihB x hx with hx1 | hx1
          · rw [hst] at hx1
            rcases List.mem_cons.mp hx1 with h1 | h1
            · exact .inr ⟨h1, List.mem_cons_self _ _⟩
            · exact .inl h1
          · exact .inr ⟨hx1.1, List.mem_cons_of_mem _ hx1.2⟩
        · refine ihC.trans ?_
          rw [hst, List.count_cons_self]
          simp only [List.length_cons]
          omega
        · intro _
          exact ihA n (by rw [hst]; exact List.mem_cons_self _ _)
      · rw [if_neg hm] at hst
        refine ⟨?_, ?_, ?_, ?_⟩
        · intro x hx
          exact ihA x (by rw [hst]; exact hx)
        · intro x hx
          rcases ihB x hx with hx1 | hx1
          · rw [hst] at hx1
            exact .inl hx1
          · exact .inr ⟨hx1.1, List.mem_cons_of_mem _ hx1.2⟩
        · refine ihC.trans ?_
          rw [hst, List.count_cons_of_ne (fun h => hm h.symm)]
        · intro hmem
          rcases List.mem_cons.mp hmem with h1 | h1
          · exact absurd h1.symm hm
          · exact ihD h1

theorem chainScanTok_fold_clear (n : Nat) (t : TokenType)
    (hf : t ≠ .fog) (hm : t ≠ .mountain) :
    ∀ (c : List TokenType) (acc : GameState × List Nat),
      countAt acc.1 n t ≤ c.count t →
      countAt (c.foldl (chainScanTok n) acc).1 n t = 0 := by
  intro c
  induction c with
  | nil =>
      intro acc hle
      simp only [List.foldl_nil]
      simp only [List.count_nil] at hle
      omega
  | cons tok rest ih =>
      intro acc hle
      simp only [List.foldl_cons]
      apply ih
      rw [countAt_chainScanTok]
      by_cases ht : t = tok
      · subst ht
        rw [if_pos ⟨hf, hm, rfl, rfl⟩]
        rw [List.count_cons_self] at hle
        omega
      · rw [if_neg (fun hd => ht hd.2.2.2)]
        rw [List.count_cons_of_ne ht] at hle
        exact hle

theorem chainScanNeighbor_facts (acc : GameState × List Nat) (n : Nat) :
    (∀ h t, countAt (chainScanNeighbor acc n).1 h t ≤ countAt acc.1 h t) ∧
    (∀ h t, (t = .fog ∨ t = .mountain ∨ h ≠ n) →
      countAt (chainScanNeighbor acc n).1 h t = countAt acc.1 h t) ∧
    (∀ x ∈ acc.2, x ∈ (chainScanNeighbor acc n).2) ∧
    (∀ x ∈ (chainScanNeighbor acc n).2,
      x ∈ acc.2 ∨ (x = n ∧ 0 < countAt acc.1 n .mountain)) ∧
    ((chainScanNeighbor acc n).2.length ≤ acc.2.length + countAt acc.1 n .mountain) ∧
    (0 < countAt acc.1 n .mountain → n ∈ (chainScanNeighbor acc n).2) ∧
    (∀ t, t ≠ .fog → t ≠ .mountain → countAt (chainScanNeighbor acc n).1 n t = 0) := by
  have hc : (acc.1.getHex n).tokens.count .mountain = countAt acc.1 n .mountain := rfl
  have hmem : TokenType.mountain ∈ (acc.1.getHex n).tokens ↔
      0 < countAt acc.1 n .mountain := by
    rw [← hc]
    exact List.count_pos_iff.symm
  obtain ⟨hgrow, hsound, hlen, hcompl⟩ :=
    chainScanTok_fold_stack n (acc.1.getHex n).tokens acc
  refine ⟨?_, ?_, ?_, ?_, ?_, ?_, ?_⟩
  · exact fun h t => (chainScanTok_fold_counts n (acc.1.getHex n).tokens acc h t).1
  · exact fun h t hcase => (chainScanTok_fold_counts n (acc.1.getHex n).tokens acc h t).2 hcase
  · exact hgrow
  · exact fun x hx => (hsound x hx).imp id (fun hx1 => ⟨hx1.1, hmem.mp hx1.2⟩)
  · rw [← hc]
    exact hlen
  · exact fun hpos => hcompl (hmem.mpr hpos)
  · intro t hf hm
    exact chainScanTok_fold_clear n t hf hm (acc.1.getHex n).tokens acc (Nat.le_of_eq rfl)

theorem scanNeighbors_fold (ns : List Nat) :
    ∀ acc : GameState × List Nat,
      (∀ h t, (t = .fog ∨ t = .mountain) →
        countAt (ns.foldl chainScanNeighbor acc).1 h t = countAt acc.1 h t) ∧
      (∀ h t, countAt (ns.foldl chainScanNeighbor acc).1 h t ≤ countAt acc.1 h t) ∧
      (∀ x ∈ acc.2, x ∈ (ns.foldl chainScanNeighbor acc).2) ∧
      (∀ x ∈ (ns.foldl chainScanNeighbor acc).2,
        x ∈ acc.2 ∨ (x ∈ ns ∧ 0 < countAt acc.1 x .mountain)) ∧
      ((∀ n ∈ ns, countAt acc.1 n .mountain ≤ 1) →
        (ns.foldl chainScanNeighbor acc).2.length ≤ acc.2.length + ns.length) ∧
      (∀ n ∈ ns, 0 < countAt acc.1 n .mountain →
        n ∈ (ns.foldl chainScanNeighbor acc).2) ∧
      (∀ n ∈ ns, ∀ t, t ≠ .fog → t ≠ .mountain →
        countAt (ns.foldl chainScanNeighbor acc).1 n t = 0) := by
  induction ns with
  | nil =>
      intro acc
      refine ⟨fun h t _ => rfl, fun h t => Nat.le_refl _, fun x hx => hx,
        fun x hx => .inl hx, fun _ => by simp, ?_, ?_⟩
      · intro n hn
        cases hn
      · intro n hn
        cases hn
  | cons n rest ih =>
      intro acc
      simp only [List.foldl_cons]
      obtain ⟨S1, S2, S3, S4, S5, S6, S7⟩ := chainScanNeighbor_facts acc n
      obtain ⟨A, B, C, D, E, F, G⟩ := ih (chainScanNeighbor acc n)
      refine ⟨?_, ?_, ?_, ?_, ?_, ?_, ?_⟩
      · intro h t hft
        rw [A h t hft, S2 h t (hft.elim Or.inl (fun hm => Or.inr (Or.inl hm)))]
      · exact fun h t => (B h t).trans (S1 h t)
      · exact fun x hx => C x (S3 x hx)
      · intro x hx
        rcases D x hx with hx1 | hx1
        · rcases S4 x hx1 with hx2 | hx2
          · exact .inl hx2
          · rcases hx2 with ⟨rfl, hpos⟩
            exact .inr ⟨List.mem_cons_self _ _, hpos⟩
        · have heq : countAt (chainScanNeighbor acc n).1 x .mountain
              = countAt acc.1 x .mountain := S2 x .mountain (Or.inr (Or.inl rfl))
          rw [heq] at hx1
          exact .inr ⟨List.mem_cons_of_mem _ hx1.1, hx1.2⟩
      · intro hone
        have hrest : ∀ m ∈ rest, countAt (chainScanNeighbor acc n).1 m .mountain ≤ 1 := by
          intro m hm
          rw [S2 m .mountain (Or.inr (Or.inl rfl))]
          exact hone m (List.mem_cons_of_mem _ hm)
        have h1 := E hrest
        have h2 := S5
        have h3 := hone n (List.mem_cons_self _ _)
        simp only [List.length_cons]
        omega
      · intro m hm hpos
        rcases List.mem_cons.mp hm with rfl | hm1
        · exact C m (S6 hpos)
        · refine F m hm1 ?_
          rw [S2 m .mountain (Or.inr (Or.inl rfl))]
          exact hpos
      · intro m hm t hf hmt
        rcases List.mem_cons.mp hm with rfl | hm1
        · have h0 := S7 t hf hmt
          have hle := B m t
          rw [h0] at hle
          omega
        · exact G m hm1 t hf hmt

theorem getNeighbors_length_le (h : Nat) : (getNeighbors h).length ≤ 6 := by
  unfold getNeighbors
  rcases hax : hexAxial h with _ | ⟨q, r⟩
  · simp
  · exact (List.length_filterMap_le _ _).trans (by decide)

theorem nodup_subset_length {l l2 : List Nat} (hd : l.Nodup) (hs : l ⊆ l2) :
    l.length ≤ l2.length :=
  (List.subperm_of_subset hd hs).length_le

theorem contains_iff_mem_nat (l : List Nat) (a : Nat) : l.contains a = true ↔ a ∈ l := by
  simp

/-- The `chainDestroyMountain` worklist-loop invariant, relative to the
pre-call state `s0` and the chosen hex `h0`: the stack and processed list
hold component hexes on the board, the processed list is duplicate-free,
each hex's mountain count is the original except that processed hexes are
cleared, processed hexes' mountain neighbors are scheduled or done, the
start hex is scheduled or done, fog counts are untouched, and every
neighbor of a processed hex holds no non-fog non-mountain token. -/
def chainInv (s0 : GameState) (h0 : Nat) (s : GameState)
    (stack processed : List Nat) : Prop :=
  (∀ x ∈ stack, MReach s0 h0 x ∧ x ∈ allHexIds) ∧
  (∀ x ∈ processed, MReach s0 h0 x ∧ x ∈ allHexIds) ∧
  processed.Nodup ∧
  (∀ h, countAt s h .mountain =
    if h ∈ processed then 0 else countAt s0 h .mountain) ∧
  (∀ m ∈ processed, ∀ n ∈ getNeighbors m, s0.hasToken n .mountain = true →
    n ∈ processed ∨ n ∈ stack) ∧
  (h0 ∈ processed ∨ h0 ∈ stack) ∧
  (∀ h, countAt s h .fog = countAt s0 h .fog) ∧
  (∀ m ∈ processed, ∀ n ∈ getNeighbors m, ∀ t, t ≠ .fog → t ≠ .mountain →
    countAt s n t = 0)

/-- What `chainDestroyMountain` achieves: component mountains destroyed,
other mountains untouched, every non-fog non-mountain token adjacent to a
component mountain destroyed, fog everywhere untouched. -/
def chainConcl (s0 : GameState) (h0 : Nat) (f : GameState) : Prop :=
  (∀ h, MReach s0 h0 h → countAt f h .mountain = 0) ∧
  (∀ h, ¬ MReach s0 h0 h → countAt f h .mountain = countAt s0 h .mountain) ∧
  (∀ m, MReach s0 h0 m → ∀ n ∈ getNeighbors m, ∀ t, t ≠ .fog → t ≠ .mountain →
    countAt f n t = 0) ∧
  (∀ h, countAt f h .fog = countAt s0 h .fog)

set_option maxHeartbeats 1600000 in
theorem chainLoop_spec (s0 : GameState) (h0 : Nat)
    (hm0 : s0.hasToken h0 .mountain = true)
    (hone : ∀ h ∈ allHexIds, countAt s0 h .mountain ≤ 1) :
    ∀ (fuel : Nat) (stack processed : List Nat) (s : GameState),
      chainInv s0 h0 s stack processed →
      stack.length + 7 * (41 - processed.length) < fuel →
      chainConcl s0 h0 (chainLoop fuel s stack processed) := by
  intro fuel
  induction fuel with
  | zero =>
      intro stack processed s _ hlt
      omega
  | succ fuel ih =>
      intro stack processed s hInv hlt
      obtain ⟨i1, i2, i3, i4, i5, i6, i7, i8⟩ := hInv
      cases stack with
      | nil =>
          have compl : ∀ h, MReach s0 h0 h → h ∈ processed := by
            intro h hR
            induction hR with
            | base =>
                rcases i6 with h1 | h1
                · exact h1
                · cases h1
            | step hmR hmm hmem hn ihm =>
                rcases i5 _ ihm _ hmem hn with h1 | h1
                · exact h1
                · cases h1
          refine ⟨?_, ?_, ?_, ?_⟩
          · intro h hR
            exact (i4 h).trans (if_pos (compl h hR))
          · intro h hR
            have hnp : h ∉ processed := fun hmem => hR (i2 h hmem).1
            exact (i4 h).trans (if_neg hnp)
          · intro m hR n hn t hf hm
            exact i8 m (compl m hR) n hn t hf hm
          · exact i7
      | cons current rest =>
          have hcur := i1 current (List.mem_cons_self _ _)
          by_cases hcont : processed.contains current = true
          · have hmemc : current ∈ processed := (contains_iff_mem_nat _ _).mp hcont
            have hnew : chainInv s0 h0 s rest processed := by
              refine ⟨fun x hx => i1 x (List.mem_cons_of_mem _ hx), i2, i3, i4,
                ?_, ?_, i7, i8⟩
              · intro m hm n hn hmt
                rcases i5 m hm n hn hmt with h1 | h1
                · exact .inl h1
                · rcases List.mem_cons.mp h1 with rfl | h2
                  · exact .inl hmemc
                  · exact .inr h2
              · rcases i6 with h1 | h1
                · exact .inl h1
                · rcases List.mem_cons.mp h1 with rfl | h2
                  · exact .inl hmemc
                  · exact .inr h2
            have hres := ih rest processed s hnew (by
              simp only [List.length_cons] at hlt
              omega)
            simpa only [chainLoop, hcont, if_true] using hres
          · have hmemnot : current ∉ processed :=
              fun hmem => hcont ((contains_iff_mem_nat _ _).mpr hmem)
            have horig_cur : s0.hasToken current .mountain = true :=
              MReach_mountain hm0 hcur.1
            have horig_pos : 0 < countAt s0 current .mountain :=
              (hasToken_iff_pos s0 current .mountain).mp horig_cur
            have hcount_cur : countAt s current .mountain
                = countAt s0 current .mountain := by
              rw [i4 current, if_neg hmemnot]
            have hM : s.hasToken current .mountain = true := by
              rw [hasToken_iff_pos, hcount_cur]
              exact horig_pos
            have hd := countAt_destroyToken s current .mountain
            have hled : ∀ h t,
                countAt (s.destroyToken current .mountain) h t ≤ countAt s h t := by
              intro h t
              rw [hd h t]
              split
              · omega
              · exact Nat.le_refl _
            have hfogd : ∀ h,
                countAt (s.destroyToken current .mountain) h .fog
                  = countAt s h .fog := by
              intro h
              rw [hd h .fog, if_neg (fun hc => absurd hc.2 (by decide))]
            obtain ⟨P1, P2, P3, P4, P5, P6, P7⟩ :=
              scanNeighbors_fold (getNeighbors current)
                (s.destroyToken current .mountain, rest)
            dsimp only at P1 P2 P3 P4 P5 P6 P7
            have hone_cur := hone current hcur.2
            have inv1 : ∀ x ∈ ((getNeighbors current).foldl chainScanNeighbor
                (s.destroyToken current .mountain, rest)).2,
                MReach s0 h0 x ∧ x ∈ allHexIds := by
              intro x hx
              rcases P4 x hx with hx1 | hx1
              · exact i1 x (List.mem_cons_of_mem _ hx1)
              · obtain ⟨hxn, hxpos⟩ := hx1
                have hxall := getNeighbors_subset current x hxn
                have hxpos_s : 0 < countAt s x .mountain :=
                  lt_of_lt_of_le hxpos (hled x .mountain)
                have hx4 := i4 x
                by_cases hxp : x ∈ processed
                · rw [if_pos hxp] at hx4
                  omega
                · rw [if_neg hxp] at hx4
                  have hxorig : s0.hasToken x .mountain = true := by
                    rw [hasToken_iff_pos]
                    omega
                  exact ⟨MReach.step hcur.1 horig_cur hxn hxorig, hxall⟩
            have inv2 : ∀ x ∈ current :: processed,
                MReach s0 h0 x ∧ x ∈ allHexIds := by
              intro x hx
              rcases List.mem_cons.mp hx with rfl | h2
              · exact hcur
              · exact i2 x h2
            have inv3 : (current :: processed).Nodup :=
              List.nodup_cons.mpr ⟨hmemnot, i3⟩
            have inv4 : ∀ h, countAt ((getNeighbors current).foldl chainScanNeighbor
                (s.destroyToken current .mountain, rest)).1 h .mountain =
                if h ∈ current :: processed then 0 else countAt s0 h .mountain := by
              intro h
              rw [P1 h .mountain (Or.inr rfl), hd h .mountain]
              by_cases hh : h = current
              · subst hh
                rw [if_pos ⟨rfl, rfl⟩, if_pos (List.mem_cons_self _ _)]
                omega
              · rw [if_neg (fun hc => hh hc.1)]
                have h4 := i4 h
                by_cases hp : h ∈ processed
                · rw [if_pos hp] at h4
                  rw [if_pos (List.mem_cons_of_mem _ hp)]
                  exact h4
                · rw [if_neg hp] at h4
                  rw [if_neg (fun hc => by
                    rcases List.mem_cons.mp hc with h1 | h1
                    · exact hh h1
                    · exact hp h1)]
                  exact h4
            have inv5 : ∀ m ∈ current :: processed, ∀ n ∈ getNeighbors m,
                s0.hasToken n .mountain = true →
                n ∈ current :: processed ∨
                  n ∈ ((getNeighbors current).foldl chainScanNeighbor
                    (s.destroyToken current .mountain, rest)).2 := by
              intro m2 hm2 n hn hmt
              rcases List.mem_cons.mp hm2 with rfl | hmp
              · by_cases hnp : n ∈ processed
                · exact .inl (List.mem_cons_of_mem _ hnp)
                · by_cases hnc : n = m2
                  · exact .inl (hnc ▸ List.mem_cons_self _ _)
                  · have h4 := i4 n
                    rw [if_neg hnp] at h4
                    have hpos0 : 0 < countAt s0 n .mountain :=
                      (hasToken_iff_pos s0 n .mountain).mp hmt
                    have hpos1 : 0 < countAt (s.destroyToken m2 .mountain)
                        n .mountain := by
                      rw [hd n .mountain, if_neg (fun hc => hnc hc.1)]
                      omega
                    exact .inr (P6 n hn hpos1)
              · rcases i5 m2 hmp n hn hmt with h1 | h1
                · exact .inl (List.mem_cons_of_mem _ h1)
                · rcases List.mem_cons.mp h1 with rfl | h2
                  · exact .inl (List.mem_cons_self _ _)
                  · exact .inr (P3 n h2)
            have inv6 : h0 ∈ current :: processed ∨
                h0 ∈ ((getNeighbors current).foldl chainScanNeighbor
                  (s.destroyToken current .mountain, rest)).2 := by
              rcases i6 with h1 | h1
              · exact .inl (List.mem_cons_of_mem _ h1)
              · rcases List.mem_cons.mp h1 with h2 | h2
                · exact .inl (h2 ▸ List.mem_cons_self _ _)
                · exact .inr (P3 h0 h2)
            have inv7 : ∀ h, countAt ((getNeighbors current).foldl chainScanNeighbor
                (s.destroyToken current .mountain, rest)).1 h .fog
                = countAt s0 h .fog := by
              intro h
              rw [P1 h .fog (Or.inl rfl), hfogd h]
              exact i7 h
            have inv8 : ∀ m ∈ current :: processed, ∀ n ∈ getNeighbors m,
                ∀ t, t ≠ .fog → t ≠ .mountain →
                countAt ((getNeighbors current).foldl chainScanNeighbor
                  (s.destroyToken current .mountain, rest)).1 n t = 0 := by
              intro m hm n hn t hf hmt2
              rcases List.mem_cons.mp hm with rfl | hmp
              · exact P7 n hn t hf hmt2
              · have hz := i8 m hmp n hn t hf hmt2
                have hle1 := hled n t
                have hle2 := P2 n t
                omega
            have hlen6 := getNeighbors_length_le current
            have hlenres := P5 (by
              intro n hn
              have h4 := i4 n
              have h1 := hone n (getNeighbors_subset current n hn)
              have hle := hled n .mountain
              by_cases hp : n ∈ processed
              · rw [if_pos hp] at h4
                omega
              · rw [if_neg hp] at h4
                omega)
            have hplen : (current :: processed).length ≤ 41 := by
              have h41 : allHexIds.length = 41 := rfl
              have hsub : ∀ x ∈ current :: processed, x ∈ allHexIds := by
                intro x hx
                rcases List.mem_cons.mp hx with rfl | h2
                · exact hcur.2
                · exact (i2 x h2).2
              have := nodup_subset_length inv3 hsub
              omega
            have hmeasure : ((getNeighbors current).foldl chainScanNeighbor
                (s.destroyToken current .mountain, rest)).2.length
                + 7 * (41 - (current :: processed).length) < fuel := by
              simp only [List.length_cons] at hlt hplen ⊢
              omega
            have hres := ih _ _ _
              ⟨inv1, inv2, inv3, inv4, inv5, inv6, inv7, inv8⟩ hmeasure
            simp only [chainLoop]
            rw [if_neg hcont, if_pos hM]
            exact hres

/-- Claim C4: on a board whose cells hold at most one mountain each (the
spec's data model) and for a chosen board hex holding a mountain,
`chainDestroyMountain` destroys exactly the mountains of the chosen hex's
connected component under mountain adjacency (`MReach`), destroys every
non-fog non-mountain token on every neighbor of a component mountain, and
removes no fog token: fog counts are unchanged on every hex. -/
theorem chainDestroyMountain_spec (s0 : GameState) (h0 : Nat)
    (hh0 : h0 ∈ allHexIds) (hm0 : s0.hasToken h0 .mountain = true)
    (hone : ∀ h ∈ allHexIds, countAt s0 h .mountain ≤ 1) :
    (∀ h, (chainDestroyMountain s0 h0).hasToken h .mountain = true ↔
        (s0.hasToken h .mountain = true ∧ ¬ MReach s0 h0 h)) ∧
    (∀ m, MReach s0 h0 m → ∀ n ∈ getNeighbors m, ∀ t, t ≠ .fog → t ≠ .mountain →
        countAt (chainDestroyMountain s0 h0) n t = 0) ∧
    (∀ h, countAt (chainDestroyMountain s0 h0) h .fog = countAt s0 h .fog) := by
  unfold chainDestroyMountain
  have hInv : chainInv s0 h0 s0 [h0] [] := by
    refine ⟨?_, ?_, List.nodup_nil, ?_, ?_, ?_, fun h => rfl, ?_⟩
    · intro x hx
      rw [List.mem_singleton.mp hx]
      exact ⟨MReach.base, hh0⟩
    · intro x hx
      cases hx
    · intro h
      rw [if_neg (List.not_mem_nil h)]
    · intro m hm
      cases hm
    · exact .inr (List.mem_singleton.mpr rfl)
    · intro m hm
      cases hm
  obtain ⟨A1, A2, B, C⟩ := chainLoop_spec s0 h0 hm0 hone 1000 [h0] [] s0 hInv
    (by simp)
  refine ⟨?_, B, C⟩
  intro h
  constructor
  · intro hft
    rw [hasToken_iff_pos] at hft
    by_cases hR : MReach s0 h0 h
    · have hz := A1 h hR
      omega
    · have heq := A2 h hR
      refine ⟨(hasToken_iff_pos s0 h .mountain).mpr (by omega), hR⟩
  · rintro ⟨hs0, hR⟩
    have heq := A2 h hR
    have hpos := (hasToken_iff_pos s0 h .mountain).mp hs0
    rw [hasToken_iff_pos]
    omega

/-- Witness for C4 at the initial scenario (mountain on hex 22). -/
theorem chainDestroyMountain_spec_witness :
    (∀ h, (chainDestroyMountain (initialGameState fun _ => 0) 22).hasToken h
          .mountain = true ↔
        ((initialGameState fun _ => 0).hasToken h .mountain = true ∧
          ¬ MReach (initialGameState fun _ => 0) 22 h)) ∧
    (∀ m, MReach (initialGameState fun _ => 0) 22 m → ∀ n ∈ getNeighbors m,
        ∀ t, t ≠ .fog → t ≠ .mountain →
        countAt (chainDestroyMountain (initialGameState fun _ => 0) 22) n t = 0) ∧
    (∀ h, countAt (chainDestroyMountain (initialGameState fun _ => 0) 22) h .fog
        = countAt (initialGameState fun _ => 0) h .fog) :=
  chainDestroyMountain_spec (initialGameState fun _ => 0) 22 (by decide) (by decide)
    (by decide)

end Aeterna
